import Mathlib

/-!
Verification of the sprint agenda scheduling and task-segmentation engine
(`src/components/SprintAgendaPlanner.tsx`) and the ClickUp description
template (`src/lib/clickupFormatting.ts`).

Modelling conventions:
* JS timestamps (epoch milliseconds) are `Int`.  The running process's local
  timezone is modelled as a fixed zero offset with no DST, so `setHours(0,0,0,0)`
  is flooring to a multiple of `dayMs` and `setDate(getDate()+i)` is adding
  `i * dayMs`.  All local-calendar-field computations (`getFullYear` etc.) go
  through a proleptic Gregorian conversion `civilFromDays` that is the
  mathematical specification of the JS `Date` local calendar fields.
* JS `number | null` fields are `Option Int`; JS truthiness tests (`!x`)
  treat both `none` and `some 0` as absent, which the model reproduces.
* JS floating-point numbers used for hours are modelled as exact rationals
  (`ℚ`); the spec itself only demands equality "within floating rounding".
* Display-only locale strings (day labels) are omitted from `SprintDay`.
-/

namespace SprintAgenda

set_option maxRecDepth 16000

/-! ### Calendar kernel: proleptic Gregorian ↔ day numbers

`civilFromDays` maps a day number (days since 1970-01-01) to `(year, month, day)`
and `daysFromCivil` is its inverse.  The era decomposition uses March-based
years: `cumDays yoe` is the number of days in a 400-year era strictly before
March-based year `yoe`, and `cumMonthDays mp` the days in a March-based year
strictly before March-based month `mp` (0 = March … 11 = February). -/

def dayMs : Int := 86400000

def cumDays (n : Nat) : Nat := 365 * n + n / 4 - n / 100 + n / 400

def cumMonthDays : Nat → Nat
  | 0 => 0
  | 1 => 31
  | 2 => 61
  | 3 => 92
  | 4 => 122
  | 5 => 153
  | 6 => 184
  | 7 => 214
  | 8 => 245
  | 9 => 275
  | 10 => 306
  | _ => 337

/-- Greatest `k ≤ n` with `f k ≤ x`, assuming `f 0 ≤ x` (downward linear search). -/
def findIdx' (f : Nat → Nat) (x : Nat) : Nat → Nat
  | 0 => 0
  | n + 1 => if f (n + 1) ≤ x then n + 1 else findIdx' f x n

/-- Day number → `(year, month 1-12, day-of-month 1-31)`, proleptic Gregorian. -/
def civilFromDays (z : Int) : Int × Nat × Nat :=
  let zs := z + 719468
  let era := zs / 146097
  let doe := (zs - era * 146097).toNat
  let yoe := findIdx' cumDays doe 399
  let doy := doe - cumDays yoe
  let mp := findIdx' cumMonthDays doy 11
  let d := doy - cumMonthDays mp + 1
  let m := if mp < 10 then mp + 3 else mp - 9
  let y := era * 400 + (yoe : Int) + (if m ≤ 2 then 1 else 0)
  (y, m, d)

/-- Day number of the first day of month `m` (1-12) of year `y`. -/
def daysFromCivilMonth (y : Int) (m : Nat) : Int :=
  let marchY := if m ≤ 2 then y - 1 else y
  let era := marchY / 400
  let yoe := (marchY - era * 400).toNat
  let mp := if 3 ≤ m then m - 3 else m + 9
  era * 146097 + ((cumDays yoe + cumMonthDays mp : Nat) : Int) - 719468

/-- Day number of the civil date `(y, m, d)`. -/
def daysFromCivil (y : Int) (m d : Nat) : Int :=
  daysFromCivilMonth y m + ((d : Int) - 1)

/-! ### Decimal rendering / parsing of day-key components -/

/-- Decimal digits, most significant first, with enough fuel (structural
recursion so that the kernel can evaluate it). -/
def natDigitsAux : Nat → Nat → List Char
  | 0, _ => []
  | fuel + 1, n =>
    if n < 10 then [Nat.digitChar n]
    else natDigitsAux fuel (n / 10) ++ [Nat.digitChar (n % 10)]

/-- Decimal digits of a natural number, most significant first (JS `${n}`). -/
def natDigits (n : Nat) : List Char := natDigitsAux (n + 1) n

/-- JS `String(k)` for an integer `k` (sign then digits). -/
def intDigits (k : Int) : List Char :=
  if k < 0 then '-' :: natDigits (-k).toNat else natDigits k.toNat

/-- `String(n).padStart(2, "0")` for the month/day components. -/
def pad2 (n : Nat) : List Char :=
  if n < 10 then '0' :: natDigits n else natDigits n

/-- Value of a list of decimal digit characters (fold, as positional decimal). -/
def digitsVal (l : List Char) : Nat :=
  l.foldl (fun acc c => acc * 10 + (c.toNat - 48)) 0

/-- JS `Number(piece)` on a piece of a split day key, restricted to the digit
strings that occur there: `""` is `0`, an all-digit string is its value, and
anything else is `NaN` (`none`).  (Other JS `Number` niceties — signs, spaces,
decimal points — cannot occur in pieces of a `"-"`-split key and are mapped to
`none`.) -/
def jsNum? (l : List Char) : Option Nat :=
  if l = [] then some 0
  else if l.all (fun c => c.isDigit) then some (digitsVal l) else none

/-- `s.split(sep)` for a single-character separator. -/
def splitChars (sep : Char) : List Char → List (List Char)
  | [] => [[]]
  | c :: r =>
    if c = sep then [] :: splitChars sep r
    else
      match splitChars sep r with
      | [] => [[c]]
      | p :: ps => (c :: p) :: ps

/-! ### The planner's date helper functions (from `SprintAgendaPlanner.tsx`) -/

def UNPLANNED_KEY : String := "unplanned"

/-- `setHours(0,0,0,0)` at local midnight: floor the timestamp to a day boundary. -/
def startOfDay (ts : Int) : Int := ts / dayMs * dayMs

/-- The zero-padded `"YYYY-MM-DD"` key of a civil date triple. -/
def renderKey (y : Int) (m d : Nat) : List Char :=
  intDigits y ++ '-' :: (pad2 m ++ '-' :: pad2 d)

/-- `formatDateKey(date)`: local-calendar-field `"YYYY-MM-DD"` key of a timestamp. -/
def formatDateKey (ts : Int) : String :=
  let c := civilFromDays (ts / dayMs)
  ⟨renderKey c.1 c.2.1 c.2.2⟩

/-- `new Date(year, month-1, day, 12, 0, 0, 0).getTime()`: the JS `Date`
constructor maps years 0-99 to 1900-1999 and normalizes month/day overflow. -/
def mkDateTs (y m d : Nat) : Int :=
  let y' : Int := if y ≤ 99 then (y : Int) + 1900 else (y : Int)
  let months : Int := y' * 12 + ((m : Int) - 1)
  let ny := months / 12
  let nm := (months - ny * 12).toNat
  (daysFromCivilMonth ny (nm + 1) + ((d : Int) - 1)) * dayMs + 43200000

/-- `keyToTimestamp(key)`: parse a `"YYYY-MM-DD"` key to a local-noon timestamp;
`null` for the unplanned sentinel, for missing pieces, and for falsy (`0`/`NaN`)
components. -/
def keyToTimestamp (key : String) : Option Int :=
  if key = UNPLANNED_KEY then none
  else
    match (splitChars '-' key.data).map jsNum? with
    | y? :: m? :: d? :: _ =>
      match y?, m?, d? with
      | some y, some m, some d =>
        if y = 0 ∨ m = 0 ∨ d = 0 then none else some (mkDateTs y m d)
      | _, _, _ => none
    | _ => none

/-! ### Planner data model -/

/-- `PlannerTask` from `SprintAgendaPlanner.tsx`. -/
structure PlannerTask where
  id : String
  name : String
  status : String
  dueDate : Option Int
  startDate : Option Int
  timeEstimate : Option Int
  assigneeIds : List String
  url : Option String
  description : String
  objective : String
  acceptanceCriteria : String
  listId : Option String
  listName : Option String
deriving DecidableEq

/-- `SprintDay` (the display-only locale `label` field is omitted). -/
structure SprintDay where
  key : String
  date : Int
deriving DecidableEq

/-- `TaskSegment`: one day's share of a task, hours as an exact rational. -/
structure TaskSegment where
  task : PlannerTask
  dayKey : String
  hours : ℚ
  isStart : Bool
  isEnd : Bool
deriving DecidableEq

/-- The `Pick<SprintConfig, "firstMonday" | "startDate">` input of `buildSprintDays`. -/
structure SprintAnchor where
  firstMonday : Option Int
  startDate : Option Int
deriving DecidableEq

/-- `sprint.firstMonday ?? sprint.startDate` (nullish coalescing). -/
def resolveAnchor (s : SprintAnchor) : Option Int :=
  match s.firstMonday with
  | some v => some v
  | none => s.startDate

/-- `buildSprintDays`: 7 consecutive days from the anchor's local midnight.
`if (!base)` makes a resolved anchor of `0` fall through to the empty list. -/
def buildSprintDays (sprint : Option SprintAnchor) : List SprintDay :=
  match sprint with
  | none => []
  | some s =>
    match resolveAnchor s with
    | none => []
    | some base =>
      if base = 0 then []
      else
        let start := startOfDay base
        (List.range 7).map fun (i : Nat) =>
          let date := start + (i : Int) * dayMs
          { key := formatDateKey date, date := date }

/-- `getTaskDayKey`: `if (!task.dueDate)` is truthiness, so a `0` due date is
also routed to the unplanned sentinel. -/
def getTaskDayKey (task : PlannerTask) : String :=
  match task.dueDate with
  | none => UNPLANNED_KEY
  | some d => if d = 0 then UNPLANNED_KEY else formatDateKey d

/-- JS truthiness of a nullable timestamp field. -/
def hasVal : Option Int → Bool
  | none => false
  | some v => v ≠ 0

/-- The day keys walked by `getTaskDays`' loop: every local calendar day from
`startDate`'s midnight up to `dueDate`'s 23:59:59.999. -/
def walkedKeys (s d : Int) : List String :=
  let startMid := startOfDay s
  let endTs := startOfDay d + dayMs - 1
  let n := if startMid ≤ endTs then ((endTs - startMid) / dayMs + 1).toNat else 0
  (List.range n).map fun i => formatDateKey (startMid + (i : Int) * dayMs)

/-- `getTaskDays`: which day keys a task occupies. -/
def getTaskDays (task : PlannerTask) (sprintDays : List SprintDay) : List String :=
  if hasVal task.startDate ∧ hasVal task.dueDate then
    match task.startDate, task.dueDate with
    | some s, some d =>
      let sprintDayKeys := sprintDays.map (·.key)
      let days := (walkedKeys s d).filter (fun k => k ∈ sprintDayKeys)
      if days.length > 0 then days else [getTaskDayKey task]
    | _, _ => []
  else
    let key := getTaskDayKey task
    if key = UNPLANNED_KEY then [] else [key]

/-- `msToHours`: `Math.round((ms / 3,600,000) * 10) / 10` with JS `Math.round`
(half-up) on an exact rational; `!value || value <= 0` yields `0`. -/
def msToHours (value : Option Int) : ℚ :=
  match value with
  | none => 0
  | some v => if v ≤ 0 then 0 else (⌊(v : ℚ) / 3600000 * 10 + 1 / 2⌋ : ℚ) / 10

/-- `hoursToMs`: `Math.round(value * 3,600,000)`, `null` propagated. -/
def hoursToMs (value : Option ℚ) : Option Int :=
  match value with
  | none => none
  | some v => some ⌊v * 3600000 + 1 / 2⌋

/-- `Array.prototype.map`'s `(element, index)` callback. -/
def mapWithIndex (f : Nat → α → β) : Nat → List α → List β
  | _, [] => []
  | i, a :: l => f i a :: mapWithIndex f (i + 1) l

/-- `createTaskSegments`: split the estimate evenly across the occupied days. -/
def createTaskSegments (task : PlannerTask) (sprintDays : List SprintDay) : List TaskSegment :=
  let days := getTaskDays task sprintDays
  if days.length = 0 then []
  else
    let totalHours := msToHours task.timeEstimate
    let hoursPerDay := totalHours / (days.length : ℚ)
    mapWithIndex
      (fun index dayKey =>
        { task := task, dayKey := dayKey, hours := hoursPerDay,
          isStart := index = 0, isEnd := index = days.length - 1 })
      0 days

/-! ### The `dayBuckets` memo: distribute segments into per-day buckets -/

/-- `bucketMap.get(segment.dayKey)?.push(segment)`: append to the first entry
with the segment's key, drop the segment if no such bucket exists. -/
def updMap (s : TaskSegment) : List (String × List TaskSegment) → List (String × List TaskSegment)
  | [] => []
  | (k, v) :: rest => if k = s.dayKey then (k, v ++ [s]) :: rest else (k, v) :: updMap s rest

/-- The fold body of the `dayBuckets` memo over one task. -/
def bucketStep (sprintDays : List SprintDay)
    (acc : List (String × List TaskSegment) × List PlannerTask) (task : PlannerTask) :
    List (String × List TaskSegment) × List PlannerTask :=
  let segments := createTaskSegments task sprintDays
  if segments = [] then (acc.1, acc.2 ++ [task])
  else (segments.foldl (fun m s => updMap s m) acc.1, acc.2)

/-- The `{ dayBuckets, unplannedTasks }` memo: one bucket per sprint day holding
the matching segments (in task order), plus the tasks that produced no segment. -/
def computeDayBuckets (tasks : List PlannerTask) (sprintDays : List SprintDay) :
    List (SprintDay × List TaskSegment) × List PlannerTask :=
  let initMap : List (String × List TaskSegment) := sprintDays.map fun d => (d.key, [])
  let result := tasks.foldl (bucketStep sprintDays) (initMap, [])
  (sprintDays.map fun d => (d, ((result.1.find? (fun p => p.1 = d.key)).map Prod.snd).getD []),
   result.2)

/-! ### Optimistic-mutation coordinator state machine

`handleTaskMove` / `handleDrawerSave` are async functions with exactly one
suspension point (the `await` on the gateway call).  They are modelled as a
synchronous *start* phase (everything up to issuing the call) and a *resolve*
phase (everything after the call settles), which is faithful under the
single-threaded event-loop semantics. -/

/-- A banner notification (`true` = success, `false` = error). -/
structure Banner where
  success : Bool
  message : String
deriving DecidableEq

/-- The component state touched by the mutation handlers. -/
structure PlannerState where
  allSprintTasks : List PlannerTask
  selectedMemberId : String
  pendingTaskIds : List String
  banner : Option Banner
  draggingTaskId : Option String
  drawerTask : Option PlannerTask
  drawerSaving : Bool
  drawerError : Option String
deriving DecidableEq

/-- The `tasks` memo: the member-filtered view of `allSprintTasks`
(empty when no member is selected). -/
def visibleTasks (st : PlannerState) : List PlannerTask :=
  if st.selectedMemberId = "" then []
  else st.allSprintTasks.filter (fun t : PlannerTask => st.selectedMemberId ∈ t.assigneeIds)

/-- `setTaskPending(taskId, true)`. -/
def addPending (ids : List String) (taskId : String) : List String :=
  if taskId ∈ ids then ids else ids ++ [taskId]

/-- `setTaskPending(taskId, false)`. -/
def removePending (ids : List String) (taskId : String) : List String :=
  ids.filter (fun i => i ≠ taskId)

/-- The `updates` body of the PATCH issued by `handleTaskMove`. -/
structure MoveCall where
  taskId : String
  currentName : String
  dueDate : Option Int
  startDate : Option Int
deriving DecidableEq

/-- `handleTaskMove` up to (and including) issuing the gateway call:
returns the state at the suspension point and the call, or `(st, none)`
if the handler returned early without issuing a call. -/
def moveTaskStart (st : PlannerState) (taskId targetDayKey : String) :
    PlannerState × Option MoveCall :=
  match (visibleTasks st).find? (fun t => t.id = taskId) with
  | none => (st, none)
  | some task =>
    if getTaskDayKey task = targetDayKey then (st, none)
    else
      let timestamp := if targetDayKey = UNPLANNED_KEY then none else keyToTimestamp targetDayKey
      ({ st with pendingTaskIds := addPending st.pendingTaskIds taskId },
       some { taskId := taskId, currentName := task.name,
              dueDate := timestamp, startDate := timestamp })

/-- `handleTaskMove` after the gateway call settles (`try`/`catch`/`finally`). -/
def moveTaskResolve (st : PlannerState) (taskId : String)
    (result : Except String PlannerTask) : PlannerState :=
  let st' :=
    match result with
    | .ok updatedTask =>
      { st with
        allSprintTasks := st.allSprintTasks.map fun t : PlannerTask => if t.id = taskId then updatedTask else t,
        banner := some { success := true, message := "Tarea actualizada en ClickUp." } }
    | .error msg => { st with banner := some { success := false, message := msg } }
  { st' with pendingTaskIds := removePending st'.pendingTaskIds taskId, draggingTaskId := none }

/-- `handleDrawerSave`'s success path after the gateway call settles: merge the
server task back, preserving the local assignee list unless the server's list
is non-empty and still contains the selected member. -/
def drawerSaveResolveOk (st : PlannerState) (updatedTask : PlannerTask) : PlannerState :=
  match st.drawerTask with
  | none => st
  | some drawerTask =>
    let preservedAssignees :=
      if updatedTask.assigneeIds ≠ [] ∧ st.selectedMemberId ∈ updatedTask.assigneeIds then
        updatedTask.assigneeIds
      else drawerTask.assigneeIds
    let taskWithAssignees := { updatedTask with assigneeIds := preservedAssignees }
    { st with
      allSprintTasks :=
        st.allSprintTasks.map fun t : PlannerTask => if t.id = drawerTask.id then taskWithAssignees else t,
      drawerTask := none,
      banner := some { success := true, message := "Tarea editada y sincronizada." },
      drawerSaving := false }

/-! ### Initial sprint selection (`useEffect` at lines 156-200) -/

/-- `SprintConfig` from `firebaseSprintConfig.ts`. -/
structure SprintConfig where
  id : String
  name : String
  number : Option Int
  startDate : Option Int
  endDate : Option Int
  firstMonday : Option Int
  listId : Option String
deriving DecidableEq

/-- The "current sprint" test: `!startDate || !endDate` short-circuits, so zero
timestamps are treated as absent. -/
def containsNowB (now : Int) (s : SprintConfig) : Bool :=
  match s.startDate, s.endDate with
  | some a, some b => a ≠ 0 && b ≠ 0 && a ≤ now && now ≤ b
  | _, _ => false

/-- The "upcoming sprint" filter (`startDate > now`, truthiness on `startDate`). -/
def futureB (now : Int) (s : SprintConfig) : Bool :=
  match s.startDate with
  | some a => a ≠ 0 && now < a
  | none => false

/-- The "past sprint" filter (`endDate < now`, truthiness on `endDate`). -/
def pastB (now : Int) (s : SprintConfig) : Bool :=
  match s.endDate with
  | some b => b ≠ 0 && b < now
  | none => false

/-- Sort key `(a.startDate || 0)`. -/
def startKey (s : SprintConfig) : Int := s.startDate.getD 0

/-- Sort key `(a.endDate || 0)`. -/
def endKey (s : SprintConfig) : Int := s.endDate.getD 0

/-- Comparator `(a, b) => (a.startDate || 0) - (b.startDate || 0)` (stable sort). -/
def startLE (a b : SprintConfig) : Prop := startKey a ≤ startKey b

/-- Comparator `(a, b) => (b.endDate || 0) - (a.endDate || 0)` (stable sort). -/
def endGE (a b : SprintConfig) : Prop := endKey b ≤ endKey a

instance : DecidableRel startLE := fun _ _ => inferInstanceAs (Decidable (_ ≤ _))

instance : DecidableRel endGE := fun _ _ => inferInstanceAs (Decidable (_ ≤ _))

instance : IsTotal SprintConfig startLE := ⟨fun a b => le_total (startKey a) (startKey b)⟩

instance : IsTrans SprintConfig startLE := ⟨fun _ _ _ h h' => le_trans h h'⟩

instance : IsTotal SprintConfig endGE := ⟨fun a b => le_total (endKey b) (endKey a)⟩

instance : IsTrans SprintConfig endGE := ⟨fun _ _ _ h h' => le_trans h' h⟩

/-- The initial sprint selection: current sprint, else earliest upcoming,
else most recently ended, else the first of the loaded list. -/
def pickInitialSprint (now : Int) (sprints : List SprintConfig) : Option String :=
  if sprints.isEmpty then none
  else
    match sprints.find? (containsNowB now) with
    | some s => some s.id
    | none =>
      let upcomingSprints := (sprints.filter (futureB now)).insertionSort startLE
      match upcomingSprints.head? with
      | some s => some s.id
      | none =>
        let pastSprints := (sprints.filter (pastB now)).insertionSort endGE
        match pastSprints.head? with
        | some s => some s.id
        | none => (sprints.head?).map (·.id)

/-! ### ClickUp description template (`src/lib/clickupFormatting.ts`)

The two regexes of `parseClickUpDescription` are embedded as specialized
matchers with JS backtracking semantics:
* `\s*\n+` after a header consumes the whitespace run up to and including its
  last newline (longest-`\s*`-first backtracking), and fails if the run has no
  newline;
* the lazy `([\s\S]*?)` before a lookahead captures up to the first position
  where the lookahead matches (or to the end, for the `|$` alternative);
* the lookahead `\n##\s*(?:Acceptance\s+Criteria|[A-Za-z])` is equivalent to
  `\n##\s*[A-Za-z]` since `Acceptance…` starts with a letter.
JS `\s` is modelled by its ASCII part (the Unicode space classes do not occur
in the claims' inputs). -/

/-- ASCII part of the JS `\s` character class. -/
def isWS (c : Char) : Bool :=
  c = ' ' ∨ c = '\t' ∨ c = '\n' ∨ c = '\r' ∨ c = '\x0b' ∨ c = '\x0c'

def dropWS (l : List Char) : List Char := l.dropWhile isWS

/-- `replace(/^\s+|\s+$/g, "")`, also JS `trim()`. -/
def trimChars (l : List Char) : List Char :=
  ((l.dropWhile isWS).reverse.dropWhile isWS).reverse

def jsTrim (s : String) : String := ⟨trimChars s.data⟩

/-- `normalizeSectionContent`. -/
def normalizeSectionContent (content : List Char) : List Char := trimChars content

/-- Strip a case-insensitive literal (regex `i` flag on a letter sequence). -/
def stripCI : List Char → List Char → Option (List Char)
  | [], s => some s
  | _, [] => none
  | p :: pr, c :: cr => if c.toLower = p.toLower then stripCI pr cr else none

/-- `buildClickUpDescription`. -/
def buildClickUpDescription (title objective acceptanceCriteria : String) : String :=
  let safeObjective := jsTrim objective
  let safeAcceptance := jsTrim acceptanceCriteria
  let objLine :=
    if safeObjective ≠ "" then safeObjective
    else if jsTrim title ≠ "" then jsTrim title
    else "Objective pending"
  if safeAcceptance ≠ "" then
    "## Objective\n" ++ objLine ++ "\n\n## Acceptance Criteria\n" ++ safeAcceptance
  else
    "## Objective\n" ++ objLine

/-- `\s*\n+` with backtracking: succeed iff the whitespace run contains a
newline, consuming up to and including its last newline. -/
def consumeWsNl (s : List Char) : Option (List Char) :=
  let w := s.takeWhile isWS
  let t := (w.reverse.takeWhile (fun c => c ≠ '\n')).length
  if t < w.length then some (s.drop (w.length - t)) else none

/-- Case-insensitive equality of two character sequences. -/
def ciEq : List Char → List Char → Bool
  | [], [] => true
  | p :: pr, q :: qr => (q.toLower = p.toLower) && ciEq pr qr
  | _, _ => false

/-- Lookahead `(?=\n##\s*[A-Za-z]|$)`. -/
def lookNlSection (s : List Char) : Bool :=
  match s with
  | [] => true
  | c1 :: rest =>
    if c1 = '\n' then
      match rest with
      | c2 :: c3 :: r =>
        if c2 = '#' ∧ c3 = '#' then
          match dropWS r with
          | c :: _ => c.isAlpha
          | [] => false
        else false
      | _ => false
    else false

/-- A lazy capture group `([\s\S]*?)` running up to the first position where
`look` holds (`look [] = true` plays the `$` alternative). -/
def lazyCap (look : List Char → Bool) : List Char → List Char
  | [] => []
  | c :: rest => if look (c :: rest) then [] else c :: lazyCap look rest

/-- `##\s*Objective\s*\n+` anchored at the head of `s`; on success returns the
suffix where the capture group starts. -/
def tryObjAt (s : List Char) : Option (List Char) :=
  match s with
  | '#' :: '#' :: r =>
    match stripCI "objective".data (dropWS r) with
    | some r2 => consumeWsNl r2
    | none => none
  | _ => none

/-- Leftmost match of `/##\s*Objective\s*\n+([\s\S]*?)(?=\n##\s*(?:Acceptance\s+Criteria|[A-Za-z])|$)/i`,
returning the capture group. -/
def scanObj : List Char → Option (List Char)
  | [] => none
  | c :: rest =>
    match tryObjAt (c :: rest) with
    | some capStart => some (lazyCap lookNlSection capStart)
    | none => scanObj rest

/-- `##\s*Acceptance\s+Criteria\s*\n+` anchored at the head of `s`. -/
def tryACHeaderAt (s : List Char) : Option (List Char) :=
  match s with
  | c1 :: c2 :: r =>
    if c1 = '#' ∧ c2 = '#' then
      match stripCI "acceptance".data (dropWS r) with
      | some r2 =>
        if r2.takeWhile isWS = [] then none
        else
          match stripCI "criteria".data (dropWS r2) with
          | some r3 => consumeWsNl r3
          | none => none
      | none => none
    else none
  | _ => none

/-- Leftmost match of `/##\s*Acceptance\s+Criteria\s*\n+([\s\S]*?)(?=\n##\s*[A-Za-z]|$)/i`. -/
def scanAC : List Char → Option (List Char)
  | [] => none
  | c :: rest =>
    match tryACHeaderAt (c :: rest) with
    | some capStart => some (lazyCap lookNlSection capStart)
    | none => scanAC rest

/-- `\s*Acceptance\s+Criteria\s*\n+` (the body after a leading `\n`); returns
what follows the consumed `\s*\n+`. -/
def tryPlainACBody (r : List Char) : Option (List Char) :=
  match stripCI "acceptance".data (dropWS r) with
  | some r2 =>
    if r2.takeWhile isWS = [] then none
    else
      match stripCI "criteria".data (dropWS r2) with
      | some r3 => consumeWsNl r3
      | none => none
  | none => none

/-- Success of the plain `Acceptance Criteria` header body (all three plain
variants — lookahead, split and fallback — succeed under the same condition). -/
def acPlainBodyAt (r : List Char) : Bool := (tryPlainACBody r).isSome

/-- Lookahead `(?=\n\s*Acceptance\s+Criteria\s*\n|$)` of the plain-text
objective fallback. -/
def lookPlainAC : List Char → Bool
  | [] => true
  | '\n' :: r => acPlainBodyAt r
  | _ => false

/-- `/^Objective\s*\n+([\s\S]*?)(?=\n\s*Acceptance\s+Criteria\s*\n|$)/i`. -/
def tryPlainObj (raw : List Char) : Option (List Char) :=
  match stripCI "objective".data raw with
  | some r => (consumeWsNl r).map (lazyCap lookPlainAC)
  | none => none

/-- Leftmost match of `/\n\s*Acceptance\s+Criteria\s*\n+([\s\S]*?)$/i`,
returning the capture (everything to the end). -/
def scanPlainAC : List Char → Option (List Char)
  | [] => none
  | c :: rest =>
    if c = '\n' then
      match tryPlainACBody rest with
      | some cap => some cap
      | none => scanPlainAC rest
    else scanPlainAC rest

/-- `##\s*Acceptance\s+Criteria` with no trailing requirement
(the markdown `split` pattern of the objective fallback). -/
def isACLooseAt (s : List Char) : Bool :=
  match s with
  | '#' :: '#' :: r =>
    match stripCI "acceptance".data (dropWS r) with
    | some r2 =>
      r2.takeWhile isWS ≠ [] &&
        (stripCI "criteria".data (dropWS r2)).isSome
    | none => false
  | _ => false

/-- `\n\s*Acceptance\s+Criteria\s*\n` (the plain `split` pattern). -/
def isPlainACSplitAt (s : List Char) : Bool :=
  match s with
  | '\n' :: r => acPlainBodyAt r
  | _ => false

/-- `str.split(pattern)[0]`: the prefix before the leftmost match (the whole
string when the pattern does not occur). -/
def splitBefore (p : List Char → Bool) : List Char → List Char
  | [] => []
  | c :: rest => if p (c :: rest) then [] else c :: splitBefore p rest

/-- `/^##?\s*Objective\s*\n+/` (anchored), used by `replace(..., "")`. -/
def stripObjHeader (s : List Char) : Option (List Char) :=
  match s with
  | '#' :: r =>
    let r1 := match r with
              | '#' :: r2 => r2
              | _ => r
    match stripCI "objective".data (dropWS r1) with
    | some r2 => consumeWsNl r2
    | none => none
  | _ => none

/-- The `beforeAcceptance` fallback of the objective extraction. -/
def fallbackObjective (raw : List Char) : List Char :=
  let beforeAcceptanceMarkdown := splitBefore isACLooseAt raw
  let beforeAcceptancePlain := splitBefore isPlainACSplitAt raw
  let beforeAcceptance :=
    if beforeAcceptanceMarkdown.length < beforeAcceptancePlain.length then
      beforeAcceptanceMarkdown
    else beforeAcceptancePlain
  if trimChars beforeAcceptance = [] then []
  else
    let cleaned := trimChars ((stripObjHeader beforeAcceptance).getD beforeAcceptance)
    if cleaned = [] then [] else normalizeSectionContent cleaned

/-- The result record of `parseClickUpDescription`. -/
structure ParsedDescription where
  objective : String
  acceptanceCriteria : String
  raw : String
deriving DecidableEq

/-- `parseClickUpDescription`. -/
def parseClickUpDescription (description : Option String) : ParsedDescription :=
  match description with
  | none => { objective := "", acceptanceCriteria := "", raw := "" }
  | some s =>
    if jsTrim s = "" then { objective := "", acceptanceCriteria := "", raw := "" }
    else
      let raw := trimChars s.data
      let objectiveMatch :=
        match scanObj raw with
        | some cap => some cap
        | none => tryPlainObj raw
      let acceptanceMatch :=
        match scanAC raw with
        | some cap => some cap
        | none => scanPlainAC raw
      let objective :=
        match objectiveMatch with
        | some cap => if cap ≠ [] then normalizeSectionContent cap else fallbackObjective raw
        | none => fallbackObjective raw
      { objective := ⟨objective⟩,
        acceptanceCriteria := ⟨normalizeSectionContent (acceptanceMatch.getD [])⟩,
        raw := ⟨raw⟩ }

/-- Safety condition for the round-trip: section text that contains no `'#'`
character and no plain-text `Acceptance Criteria` header line. -/
def sectionSafe (s : String) : Prop :=
  '#' ∉ s.data ∧
    (('\n' :: s.data).tails.all fun t =>
      match t with
      | '\n' :: r => !acPlainBodyAt r
      | _ => true) = true

instance : DecidablePred sectionSafe := fun _ => inferInstanceAs (Decidable (_ ∧ _))

/-! ### Concrete example data used by counterexamples and witnesses -/

/-- 2025-11-17T00:00 local time (a Monday, scenario A of the spec). -/
def mondayTs : Int := 1763337600000

/-- A task builder with the irrelevant fields fixed. -/
def mkTask (id : String) (dueDate startDate timeEstimate : Option Int)
    (assigneeIds : List String) : PlannerTask :=
  { id := id, name := id, status := "open", dueDate := dueDate, startDate := startDate,
    timeEstimate := timeEstimate, assigneeIds := assigneeIds, url := none,
    description := "", objective := "", acceptanceCriteria := "",
    listId := none, listName := none }

/-- A sprint-config builder with the irrelevant fields fixed. -/
def mkSprint (id : String) (startDate endDate : Option Int) : SprintConfig :=
  { id := id, name := id, number := none, startDate := startDate, endDate := endDate,
    firstMonday := none, listId := none }

/-- A planner-state builder around a task list
(member `"m1"` selected, everything else idle). -/
def mkState (tasks : List PlannerTask) : PlannerState :=
  { allSprintTasks := tasks, selectedMemberId := "m1", pendingTaskIds := [],
    banner := none, draggingTaskId := none, drawerTask := none,
    drawerSaving := false, drawerError := none }

/-! ## Lemmas -/

/-! ### Calendar kernel lemmas -/

theorem findIdx'_le (f : Nat → Nat) (x : Nat) : ∀ n, findIdx' f x n ≤ n
  | 0 => le_refl 0
  | n + 1 => by
    unfold findIdx'
    split
    · exact le_refl _
    · exact le_trans (findIdx'_le f x n) (Nat.le_succ n)

theorem findIdx'_spec (f : Nat → Nat) (x : Nat) (h0 : f 0 ≤ x) :
    ∀ n, x < f (n + 1) → f (findIdx' f x n) ≤ x ∧ x < f (findIdx' f x n + 1)
  | 0, htop => by simpa [findIdx'] using ⟨h0, htop⟩
  | n + 1, htop => by
    unfold findIdx'
    split
    · exact ⟨by assumption, htop⟩
    · exact findIdx'_spec f x h0 n (by omega)

theorem cumDays_400 : cumDays 400 = 146097 := rfl

theorem cumDays_zero : cumDays 0 = 0 := rfl

theorem cumDays_step (n : Nat) :
    cumDays n + 365 ≤ cumDays (n + 1) ∧ cumDays (n + 1) ≤ cumDays n + 366 := by
  unfold cumDays
  omega

/-- `findIdx'` returns an index whose `f`-value is below the bound. -/
theorem findIdx'_le_self (f : Nat → Nat) (x : Nat) (h0 : f 0 ≤ x) :
    ∀ n, f (findIdx' f x n) ≤ x
  | 0 => by simpa [findIdx'] using h0
  | n + 1 => by
    unfold findIdx'
    split
    · assumption
    · exact findIdx'_le_self f x h0 n

/-- Reassembling the civil date produced by `civilFromDays` recovers the
era/year/month decomposition. -/
theorem daysFromCivilMonth_reassemble (era : Int) (yoe mp : Nat)
    (hyoeLe : yoe ≤ 399) (hmpLe : mp ≤ 11) :
    daysFromCivilMonth
        (era * 400 + (yoe : Int) + (if (if mp < 10 then mp + 3 else mp - 9) ≤ 2 then 1 else 0))
        (if mp < 10 then mp + 3 else mp - 9) =
      era * 146097 + (cumDays yoe : Int) + (cumMonthDays mp : Int) - 719468 := by
  by_cases hmplt : mp < 10
  · simp only [if_pos hmplt]
    have h1 : ¬(mp + 3 ≤ 2) := by omega
    have h2 : 3 ≤ mp + 3 := by omega
    simp only [daysFromCivilMonth, if_neg h1, if_pos h2, add_zero, Nat.add_sub_cancel]
    have hE : (era * 400 + (yoe : Int)) / 400 = era := by omega
    rw [hE]
    have harg : (era * 400 + (yoe : Int) - era * 400).toNat = yoe := by omega
    rw [harg]
    push_cast
    ring
  · simp only [if_neg hmplt]
    have h1 : mp - 9 ≤ 2 := by omega
    have h2 : ¬(3 ≤ mp - 9) := by omega
    simp only [daysFromCivilMonth, if_pos h1, if_neg h2]
    have h3 : mp - 9 + 9 = mp := by omega
    rw [h3]
    have hE0 : era * 400 + (yoe : Int) + 1 - 1 = era * 400 + (yoe : Int) := by ring
    rw [hE0]
    have hE : (era * 400 + (yoe : Int)) / 400 = era := by omega
    rw [hE]
    have harg : (era * 400 + (yoe : Int) - era * 400).toNat = yoe := by omega
    rw [harg]
    push_cast
    ring

/-- The inverse identity of the calendar kernel: converting a day number to a
civil date and back is the identity. -/
theorem daysFromCivil_civilFromDays (z : Int) :
    daysFromCivil (civilFromDays z).1 (civilFromDays z).2.1 (civilFromDays z).2.2 = z := by
  have hmodnn := Int.emod_nonneg (z + 719468) (by norm_num : (146097 : Int) ≠ 0)
  have hmodlt := Int.emod_lt_of_pos (z + 719468) (by norm_num : (0 : Int) < 146097)
  have hdm := Int.ediv_add_emod (z + 719468) 146097
  simp only [civilFromDays, daysFromCivil]
  set era : Int := (z + 719468) / 146097 with hera
  set doe : Nat := (z + 719468 - era * 146097).toNat with hdoe
  set yoe : Nat := findIdx' cumDays doe 399 with hyoe
  set doy : Nat := doe - cumDays yoe with hdoy
  set mp : Nat := findIdx' cumMonthDays doy 11 with hmp
  rw [daysFromCivilMonth_reassemble era yoe mp
    (hyoe ▸ findIdx'_le cumDays doe 399) (hmp ▸ findIdx'_le cumMonthDays doy 11)]
  have hyLe : cumDays yoe ≤ doe := hyoe ▸ findIdx'_le_self cumDays doe (by simp [cumDays]) 399
  have hmpDoy : cumMonthDays mp ≤ doy :=
    hmp ▸ findIdx'_le_self cumMonthDays doy (by simp [cumMonthDays]) 11
  omega

/-- The month produced by `civilFromDays` is in `1..12` and the day is positive. -/
theorem civilFromDays_ranges (z : Int) :
    1 ≤ (civilFromDays z).2.1 ∧ (civilFromDays z).2.1 ≤ 12 ∧ 1 ≤ (civilFromDays z).2.2 := by
  simp only [civilFromDays]
  have hmpLe := findIdx'_le cumMonthDays ((z + 719468 - (z + 719468) / 146097 * 146097).toNat -
    cumDays (findIdx' cumDays (z + 719468 - (z + 719468) / 146097 * 146097).toNat 399)) 11
  split <;> omega

/-! ### Digit-string lemmas -/

theorem digitChar_isDigit : ∀ d < 10, (Nat.digitChar d).isDigit = true := by decide

theorem digitChar_val : ∀ d < 10, (Nat.digitChar d).toNat - 48 = d := by decide

theorem natDigitsAux_ne_nil : ∀ fuel n, n < fuel → natDigitsAux fuel n ≠ []
  | fuel + 1, n, _ => by
    rw [natDigitsAux]
    split
    · simp
    · simp

theorem natDigits_ne_nil (n : Nat) : natDigits n ≠ [] :=
  natDigitsAux_ne_nil (n + 1) n (by omega)

theorem natDigitsAux_isDigit :
    ∀ fuel n, n < fuel → ∀ c ∈ natDigitsAux fuel n, c.isDigit = true
  | fuel + 1, n, hf => by
    rw [natDigitsAux]
    split
    · intro c hc
      rw [List.mem_singleton] at hc
      subst hc
      exact digitChar_isDigit n (by omega)
    · intro c hc
      have hdiv : n / 10 < n := Nat.div_lt_self (by omega) (by omega)
      rcases List.mem_append.mp hc with h | h
      · exact natDigitsAux_isDigit fuel (n / 10) (by omega) c h
      · rw [List.mem_singleton] at h
        subst h
        exact digitChar_isDigit (n % 10) (Nat.mod_lt _ (by omega))

theorem natDigits_isDigit (n : Nat) : ∀ c ∈ natDigits n, c.isDigit = true :=
  natDigitsAux_isDigit (n + 1) n (by omega)

theorem digitsVal_append (l : List Char) (c : Char) :
    digitsVal (l ++ [c]) = digitsVal l * 10 + (c.toNat - 48) := by
  simp [digitsVal, List.foldl_append]

theorem digitsVal_natDigitsAux :
    ∀ fuel n, n < fuel → digitsVal (natDigitsAux fuel n) = n
  | fuel + 1, n, hf => by
    rw [natDigitsAux]
    split
    · rename_i h
      show digitsVal [Nat.digitChar n] = n
      have hv := digitChar_val n h
      simp [digitsVal]
      omega
    · rename_i h
      have hdiv : n / 10 < n := Nat.div_lt_self (by omega) (by omega)
      rw [digitsVal_append, digitsVal_natDigitsAux fuel (n / 10) (by omega)]
      have hv := digitChar_val (n % 10) (Nat.mod_lt _ (by omega))
      omega

theorem digitsVal_natDigits (n : Nat) : digitsVal (natDigits n) = n :=
  digitsVal_natDigitsAux (n + 1) n (by omega)

theorem dash_not_mem_natDigits (n : Nat) : '-' ∉ natDigits n := by
  intro h
  have := natDigits_isDigit n '-' h
  simp [Char.isDigit] at this

theorem jsNum?_natDigits (n : Nat) : jsNum? (natDigits n) = some n := by
  rw [jsNum?, if_neg (natDigits_ne_nil n), if_pos, digitsVal_natDigits]
  rw [List.all_eq_true]
  exact natDigits_isDigit n

theorem dash_not_mem_pad2 (n : Nat) : '-' ∉ pad2 n := by
  rw [pad2]
  split
  · intro h
    rcases List.mem_cons.mp h with h | h
    · exact absurd h (by decide)
    · exact dash_not_mem_natDigits n h
  · exact dash_not_mem_natDigits n

theorem jsNum?_pad2 (n : Nat) : jsNum? (pad2 n) = some n := by
  rw [pad2]
  split
  · rw [jsNum?, if_neg (by simp), if_pos]
    · show some (digitsVal ('0' :: natDigits n)) = some n
      have : digitsVal ('0' :: natDigits n) = digitsVal (natDigits n) := by
        simp [digitsVal]
      rw [this, digitsVal_natDigits]
    · rw [List.all_eq_true]
      intro c hc
      rcases List.mem_cons.mp hc with h | h
      · subst h; decide
      · exact natDigits_isDigit n c h
  · exact jsNum?_natDigits n

/-! ### Split lemmas -/

theorem splitChars_of_no_sep (sep : Char) (x : List Char) (hx : sep ∉ x) :
    splitChars sep x = [x] := by
  induction x with
  | nil => rfl
  | cons c cr ih =>
    have hc : ¬(c = sep) := fun h => hx (h ▸ List.mem_cons_self c cr)
    rw [splitChars, if_neg hc, ih (fun h => hx (List.mem_cons_of_mem c h))]

theorem splitChars_append (sep : Char) (x : List Char) (hx : sep ∉ x) (rest : List Char) :
    splitChars sep (x ++ sep :: rest) = x :: splitChars sep rest := by
  induction x with
  | nil =>
    show splitChars sep (sep :: rest) = [] :: splitChars sep rest
    rw [splitChars, if_pos rfl]
  | cons c cr ih =>
    have hc : ¬(c = sep) := fun h => hx (h ▸ List.mem_cons_self c cr)
    rw [List.cons_append, splitChars, if_neg hc,
      ih (fun h => hx (List.mem_cons_of_mem c h))]

/-! ### Day-key round-trip lemmas -/

theorem splitChars_renderKey (y : Int) (m d : Nat) (hy : 0 < y) :
    splitChars '-' (renderKey y m d) = [natDigits y.toNat, pad2 m, pad2 d] := by
  rw [renderKey, intDigits, if_neg (by omega)]
  rw [splitChars_append '-' _ (dash_not_mem_natDigits y.toNat),
    splitChars_append '-' _ (dash_not_mem_pad2 m),
    splitChars_of_no_sep '-' _ (dash_not_mem_pad2 d)]

theorem renderKey_ne_unplanned (y : Int) (m d : Nat) :
    (⟨renderKey y m d⟩ : String) ≠ UNPLANNED_KEY := by
  intro h
  have hdata : renderKey y m d = UNPLANNED_KEY.data := congrArg String.data h
  have hmem : '-' ∈ renderKey y m d := by
    rw [renderKey]
    exact List.mem_append.mpr (Or.inr (List.mem_cons_self _ _))
  rw [hdata] at hmem
  exact absurd hmem (by decide)

/-- Parsing a rendered key with a year `≥ 100` (no 1900-shift) recovers local
noon of the same civil date. -/
theorem keyToTimestamp_renderKey (y : Int) (m d : Nat)
    (hy : 100 ≤ y) (hm1 : 1 ≤ m) (hm2 : m ≤ 12) (hd : 1 ≤ d) :
    keyToTimestamp ⟨renderKey y m d⟩ = some (daysFromCivil y m d * dayMs + 43200000) := by
  rw [keyToTimestamp, if_neg (renderKey_ne_unplanned y m d)]
  show (match (splitChars '-' (renderKey y m d)).map jsNum? with
    | y? :: m? :: d? :: _ => _
    | _ => none) = _
  rw [splitChars_renderKey y m d (by omega)]
  simp only [List.map_cons, List.map_nil, jsNum?_natDigits, jsNum?_pad2]
  have hyNat : y.toNat ≠ 0 := by omega
  rw [if_neg (by push_neg; exact ⟨hyNat, by omega, by omega⟩)]
  rw [mkDateTs, daysFromCivil]
  have hyn : ¬(y.toNat ≤ 99) := by omega
  simp only [if_neg hyn]
  have hcast : ((y.toNat : Int)) = y := Int.toNat_of_nonneg (by omega)
  rw [hcast]
  have hdiv : (y * 12 + ((m : Int) - 1)) / 12 = y := by omega
  rw [hdiv]
  have harg : (y * 12 + ((m : Int) - 1) - y * 12).toNat + 1 = m := by omega
  rw [harg]


/-- Round-trip of `formatDateKey` through `keyToTimestamp` for years `≥ 100`. -/
theorem formatDateKey_roundtrip (ts : Int) (hy : 100 ≤ (civilFromDays (ts / dayMs)).1) :
    keyToTimestamp (formatDateKey ts) = some (ts / dayMs * dayMs + 43200000) ∧
      formatDateKey (ts / dayMs * dayMs + 43200000) = formatDateKey ts := by
  obtain ⟨hm1, hm2, hd⟩ := civilFromDays_ranges (ts / dayMs)
  have h1 := keyToTimestamp_renderKey (civilFromDays (ts / dayMs)).1
    (civilFromDays (ts / dayMs)).2.1 (civilFromDays (ts / dayMs)).2.2 hy hm1 hm2 hd
  rw [daysFromCivil_civilFromDays] at h1
  have hsame : (ts / dayMs * dayMs + 43200000) / dayMs = ts / dayMs := by
    unfold dayMs
    omega
  constructor
  · rw [formatDateKey]
    exact h1
  · rw [formatDateKey, formatDateKey, hsame]

/-- Every day produced by `buildSprintDays` is keyed by `formatDateKey` of its date. -/
theorem buildSprintDays_key (sprint : Option SprintAnchor) (day : SprintDay)
    (h : day ∈ buildSprintDays sprint) : day.key = formatDateKey day.date := by
  rcases sprint with _ | s
  · simp [buildSprintDays] at h
  · rcases hr : resolveAnchor s with _ | base
    · simp [buildSprintDays, hr] at h
    · by_cases hb : base = 0
      · simp [buildSprintDays, hr, hb] at h
      · simp only [buildSprintDays, hr, if_neg hb, List.mem_map, List.mem_range] at h
        obtain ⟨i, _, rfl⟩ := h
        rfl

/-! ## Claim theorems -/

/-- **C6 counterexample.** The claim states that whenever `firstMonday` or
`startDate` is present, `buildSprintDays` returns exactly 7 entries.  With
`startDate = 0` (a present epoch timestamp) the resolved anchor is `0`, which
the JS truthiness test `if (!base)` treats as absent: the result is empty. -/
theorem C6_counterexample :
    resolveAnchor { firstMonday := none, startDate := some 0 } = some 0 ∧
      buildSprintDays (some { firstMonday := none, startDate := some 0 }) = [] ∧
      (buildSprintDays (some { firstMonday := none, startDate := some 0 })).length ≠ 7 := by
  refine ⟨rfl, rfl, by decide⟩

/-- **C6 (amended).** For every sprint-like input whose resolved anchor
(`firstMonday ?? startDate`) is present *and non-zero*, `buildSprintDays`
returns exactly 7 entries with strictly increasing dates; the `i`-th entry's
date is the anchor's local midnight plus `i` days (consecutive calendar days),
and its key is the zero-padded local `"YYYY-MM-DD"` key of that date. -/
theorem C6_buildSprintDays_window (s : SprintAnchor) (base : Int)
    (hres : resolveAnchor s = some base) (hnz : base ≠ 0) :
    (buildSprintDays (some s)).length = 7 ∧
      (buildSprintDays (some s)).Pairwise (fun a b => a.date < b.date) ∧
      ∀ i (hi : i < (buildSprintDays (some s)).length),
        ((buildSprintDays (some s)).get ⟨i, hi⟩).date = startOfDay base + (i : Int) * dayMs ∧
        ((buildSprintDays (some s)).get ⟨i, hi⟩).key
          = formatDateKey (startOfDay base + (i : Int) * dayMs) ∧
        ((buildSprintDays (some s)).get ⟨i, hi⟩).date / dayMs = base / dayMs + (i : Int) := by
  have hdef : buildSprintDays (some s) =
      (List.range 7).map (fun (i : Nat) =>
        { key := formatDateKey (startOfDay base + (i : Int) * dayMs),
          date := startOfDay base + (i : Int) * dayMs : SprintDay }) := by
    simp only [buildSprintDays, hres, if_neg hnz]
  refine ⟨by rw [hdef]; simp, ?_, ?_⟩
  · rw [hdef]
    refine List.Pairwise.map _ ?_ (List.pairwise_lt_range 7)
    intro a b hab
    show startOfDay base + (a : Int) * dayMs < startOfDay base + (b : Int) * dayMs
    unfold dayMs
    omega
  · intro i hi
    have hget := List.get_of_eq hdef ⟨i, hi⟩
    rw [hget]
    simp only [List.get_eq_getElem, List.getElem_map, List.getElem_range]
    refine ⟨trivial, trivial, ?_⟩
    show (startOfDay base + (i : Int) * dayMs) / dayMs = base / dayMs + (i : Int)
    unfold startOfDay dayMs
    omega

/-- **C6 witness** at scenario A's sprint (`firstMonday` = 2025-11-17). -/
theorem C6_witness :
    resolveAnchor ⟨some 1763337600000, none⟩ = some 1763337600000 ∧
      (1763337600000 : Int) ≠ 0 ∧
      ((buildSprintDays (some ⟨some 1763337600000, none⟩)).length = 7 ∧
        (buildSprintDays (some ⟨some 1763337600000, none⟩)).Pairwise
          (fun a b => a.date < b.date) ∧
        ∀ i (hi : i < (buildSprintDays (some ⟨some 1763337600000, none⟩)).length),
          ((buildSprintDays (some ⟨some 1763337600000, none⟩)).get ⟨i, hi⟩).date
              = startOfDay 1763337600000 + (i : Int) * dayMs ∧
          ((buildSprintDays (some ⟨some 1763337600000, none⟩)).get ⟨i, hi⟩).key
              = formatDateKey (startOfDay 1763337600000 + (i : Int) * dayMs) ∧
          ((buildSprintDays (some ⟨some 1763337600000, none⟩)).get ⟨i, hi⟩).date / dayMs
              = 1763337600000 / dayMs + (i : Int)) :=
  ⟨rfl, by decide, C6_buildSprintDays_window _ 1763337600000 rfl (by decide)⟩

/-- **C7 counterexample.**  The key `"99-01-05"` is produced by
`buildSprintDays` for a sprint anchored in year 99, but `keyToTimestamp` feeds
its year through `new Date(99, …)`, which JS maps to 1999; reformatting yields
`"1999-01-05" ≠ "99-01-05"`, so the produced key does not round-trip. -/
theorem C7_counterexample :
    (buildSprintDays (some ⟨some (-59042649600000), none⟩)).head?
        = some ⟨"99-01-05", -59042649600000⟩ ∧
      (keyToTimestamp "99-01-05").map formatDateKey = some "1999-01-05" ∧
      ("1999-01-05" : String) ≠ "99-01-05" := by
  refine ⟨by decide, by decide, by decide⟩

/-- **C7 (amended).**  For every day key produced by `buildSprintDays` whose
civil year is at least 100 (so that the JS `Date(year, …)` constructor's
1900-shift for two-digit years does not apply), parsing the key with
`keyToTimestamp` and reformatting with `formatDateKey` yields the key again. -/
theorem C7_dayKey_roundtrip (sprint : SprintAnchor) (day : SprintDay)
    (hmem : day ∈ buildSprintDays (some sprint))
    (hy : 100 ≤ (civilFromDays (day.date / dayMs)).1) :
    ∃ t, keyToTimestamp day.key = some t ∧ formatDateKey t = day.key := by
  have hkey := buildSprintDays_key (some sprint) day hmem
  obtain ⟨h1, h2⟩ := formatDateKey_roundtrip day.date hy
  rw [hkey]
  exact ⟨_, h1, h2⟩

/-- **C7 witness** at scenario A's sprint. -/
theorem C7_witness :
    (⟨"2025-11-17", 1763337600000⟩ : SprintDay)
        ∈ buildSprintDays (some ⟨some 1763337600000, none⟩) ∧
      100 ≤ (civilFromDays ((1763337600000 : Int) / dayMs)).1 ∧
      ∃ t, keyToTimestamp "2025-11-17" = some t ∧ formatDateKey t = "2025-11-17" :=
  ⟨by decide, by decide,
    C7_dayKey_roundtrip ⟨some 1763337600000, none⟩
      ⟨"2025-11-17", 1763337600000⟩ (by decide) (by decide)⟩

/-! ### Task-to-day mapping and segmentation (C5, C1) -/

/-- The walked range for a two-day span starting at `s` covers exactly the
three consecutive days of `s`'s local calendar window. -/
theorem walkedKeys_two_day_span (s : Int) :
    walkedKeys s (s + 2 * dayMs) =
      [formatDateKey (startOfDay s), formatDateKey (startOfDay s + dayMs),
        formatDateKey (startOfDay s + 2 * dayMs)] := by
  have hsd : startOfDay (s + 2 * dayMs) = startOfDay s + 2 * dayMs := by
    unfold startOfDay dayMs
    omega
  have hn : (if startOfDay s ≤ startOfDay (s + 2 * dayMs) + dayMs - 1 then
      ((startOfDay (s + 2 * dayMs) + dayMs - 1 - startOfDay s) / dayMs + 1).toNat else 0) = 3 := by
    rw [hsd, if_pos (by unfold startOfDay dayMs; omega)]
    unfold startOfDay dayMs
    omega
  rw [walkedKeys, hn]
  show [formatDateKey (startOfDay s + (0 : Nat) * dayMs),
      formatDateKey (startOfDay s + (1 : Nat) * dayMs),
      formatDateKey (startOfDay s + (2 : Nat) * dayMs)] = _
  norm_num

/-- Hours projection of constant-hour segments built by `mapWithIndex`. -/
theorem mapWithIndex_hours_replicate (task : PlannerTask) (h : ℚ) (n : Nat) :
    ∀ i l, ((mapWithIndex (fun index dayKey =>
        ({ task := task, dayKey := dayKey, hours := h,
           isStart := index = 0, isEnd := index = n } : TaskSegment)) i l).map
          TaskSegment.hours) = List.replicate l.length h := by
  intro i l
  induction l generalizing i with
  | nil => rfl
  | cons a l ih =>
    simp only [mapWithIndex, List.map_cons, List.length_cons, List.replicate]
    rw [ih (i + 1)]

/-- The sum of a task's segment hours equals its total estimate in hours
whenever it occupies at least one day (exact over `ℚ`). -/
theorem createTaskSegments_sum (t : PlannerTask) (ds : List SprintDay)
    (h : createTaskSegments t ds ≠ []) :
    ((createTaskSegments t ds).map TaskSegment.hours).sum = msToHours t.timeEstimate := by
  rw [createTaskSegments] at h ⊢
  by_cases hlen : (getTaskDays t ds).length = 0
  · rw [if_pos hlen] at h
    exact absurd rfl h
  · rw [if_neg hlen]
    rw [mapWithIndex_hours_replicate t _ _ 0 (getTaskDays t ds)]
    rw [List.sum_replicate, nsmul_eq_mul]
    rw [mul_div_cancel₀]
    exact Nat.cast_ne_zero.mpr hlen

/-- **C5 counterexample.**  A task with `startDate = 0` and
`dueDate = 0 + 2 days`, all three covered days inside the sprint window
(anchor 1969-12-29): the JS truthiness test `!task.startDate` treats the zero
start timestamp as absent, so the mapper takes the single-day path and returns
one key instead of three. -/
theorem C5_counterexample :
    formatDateKey 0 ∈ (buildSprintDays (some ⟨some (-259200000), none⟩)).map SprintDay.key ∧
      formatDateKey 86400000
        ∈ (buildSprintDays (some ⟨some (-259200000), none⟩)).map SprintDay.key ∧
      formatDateKey 172800000
        ∈ (buildSprintDays (some ⟨some (-259200000), none⟩)).map SprintDay.key ∧
      getTaskDays (mkTask "t1" (some 172800000) (some 0) (some 10800000) ["m1"])
          (buildSprintDays (some ⟨some (-259200000), none⟩)) = ["1970-01-03"] ∧
      (getTaskDays (mkTask "t1" (some 172800000) (some 0) (some 10800000) ["m1"])
          (buildSprintDays (some ⟨some (-259200000), none⟩))).length ≠ 3 := by
  refine ⟨by decide, by decide, by decide, by decide, by decide⟩

/-- **C5 (amended).**  For every task with `startDate = D0 ≠ 0` and
`dueDate = D0 + 2 days ≠ 0` (nonzero timestamps — zero is treated as absent by
JS truthiness) whose three covered days all fall inside the sprint window, the
mapper returns exactly those 3 day keys in chronological order and the
segmenter assigns each day `estimateHours / 3` with exactly one `isStart` and
one `isEnd` segment; and in general the sum of a task's segment hours equals
its total estimate in hours (exactly, over `ℚ`), split evenly per occupied
day. -/
theorem C5_three_day_split (task : PlannerTask) (sprintDays : List SprintDay) (s : Int)
    (hs : task.startDate = some s) (hs0 : s ≠ 0)
    (hd : task.dueDate = some (s + 2 * dayMs)) (hd0 : s + 2 * dayMs ≠ 0)
    (h0 : formatDateKey (startOfDay s) ∈ sprintDays.map SprintDay.key)
    (h1 : formatDateKey (startOfDay s + dayMs) ∈ sprintDays.map SprintDay.key)
    (h2 : formatDateKey (startOfDay s + 2 * dayMs) ∈ sprintDays.map SprintDay.key) :
    getTaskDays task sprintDays =
        [formatDateKey (startOfDay s), formatDateKey (startOfDay s + dayMs),
          formatDateKey (startOfDay s + 2 * dayMs)] ∧
      startOfDay s < startOfDay s + dayMs ∧
      startOfDay s + dayMs < startOfDay s + 2 * dayMs ∧
      createTaskSegments task sprintDays =
        [{ task := task, dayKey := formatDateKey (startOfDay s),
           hours := msToHours task.timeEstimate / 3, isStart := true, isEnd := false },
         { task := task, dayKey := formatDateKey (startOfDay s + dayMs),
           hours := msToHours task.timeEstimate / 3, isStart := false, isEnd := false },
         { task := task, dayKey := formatDateKey (startOfDay s + 2 * dayMs),
           hours := msToHours task.timeEstimate / 3, isStart := false, isEnd := true }] ∧
      ((createTaskSegments task sprintDays).filter TaskSegment.isStart).length = 1 ∧
      ((createTaskSegments task sprintDays).filter TaskSegment.isEnd).length = 1 ∧
      ((createTaskSegments task sprintDays).map TaskSegment.hours).sum
        = msToHours task.timeEstimate ∧
      ∀ (t : PlannerTask) (ds : List SprintDay), createTaskSegments t ds ≠ [] →
        ((createTaskSegments t ds).map TaskSegment.hours).sum = msToHours t.timeEstimate := by
  have hcond : hasVal task.startDate = true ∧ hasVal task.dueDate = true := by
    rw [hs, hd]
    exact ⟨by simp [hasVal, hs0], by simp [hasVal, hd0]⟩
  have hdays : getTaskDays task sprintDays =
      [formatDateKey (startOfDay s), formatDateKey (startOfDay s + dayMs),
        formatDateKey (startOfDay s + 2 * dayMs)] := by
    rw [getTaskDays, if_pos hcond, hs, hd]
    show (let sprintDayKeys := sprintDays.map SprintDay.key
          let days := (walkedKeys s (s + 2 * dayMs)).filter (fun k => k ∈ sprintDayKeys)
          if days.length > 0 then days else [getTaskDayKey task]) = _
    rw [walkedKeys_two_day_span]
    simp only [List.filter_cons, List.filter_nil, decide_eq_true h0, decide_eq_true h1,
      decide_eq_true h2, if_true]
    rfl
  have hsegs : createTaskSegments task sprintDays =
      [{ task := task, dayKey := formatDateKey (startOfDay s),
         hours := msToHours task.timeEstimate / 3, isStart := true, isEnd := false },
       { task := task, dayKey := formatDateKey (startOfDay s + dayMs),
         hours := msToHours task.timeEstimate / 3, isStart := false, isEnd := false },
       { task := task, dayKey := formatDateKey (startOfDay s + 2 * dayMs),
         hours := msToHours task.timeEstimate / 3, isStart := false, isEnd := true }] := by
    rw [createTaskSegments, hdays]
    norm_num [mapWithIndex]
  refine ⟨hdays, by unfold dayMs; omega, by unfold dayMs; omega, hsegs, ?_, ?_, ?_,
    createTaskSegments_sum⟩
  · rw [hsegs]
    rfl
  · rw [hsegs]
    rfl
  · rw [hsegs]
    show msToHours task.timeEstimate / 3 + (msToHours task.timeEstimate / 3 +
      (msToHours task.timeEstimate / 3 + 0)) = msToHours task.timeEstimate
    ring

/-- **C5 witness**: a 3-day task (6h estimate) inside scenario A's window. -/
theorem C5_witness :
    (mkTask "t1" (some (1763337600000 + 2 * dayMs)) (some 1763337600000)
        (some 21600000) ["m1"]).startDate = some 1763337600000 ∧
      (1763337600000 : Int) ≠ 0 ∧
      getTaskDays (mkTask "t1" (some (1763337600000 + 2 * dayMs)) (some 1763337600000)
          (some 21600000) ["m1"]) (buildSprintDays (some ⟨some 1763337600000, none⟩))
        = [formatDateKey (startOfDay 1763337600000),
           formatDateKey (startOfDay 1763337600000 + dayMs),
           formatDateKey (startOfDay 1763337600000 + 2 * dayMs)] ∧
      ((createTaskSegments (mkTask "t1" (some (1763337600000 + 2 * dayMs))
            (some 1763337600000) (some 21600000) ["m1"])
          (buildSprintDays (some ⟨some 1763337600000, none⟩))).map TaskSegment.hours).sum
        = msToHours (some 21600000) := by
  have h := C5_three_day_split
    (mkTask "t1" (some (1763337600000 + 2 * dayMs)) (some 1763337600000)
      (some 21600000) ["m1"])
    (buildSprintDays (some ⟨some 1763337600000, none⟩)) 1763337600000
    rfl (by decide) rfl (by decide) (by decide) (by decide) (by decide)
  exact ⟨rfl, by decide, h.1, h.2.2.2.2.2.2.1⟩

/-! ### Day-bucket lemmas (C1) -/

theorem mem_updMap (s : TaskSegment) :
    ∀ (m : List (String × List TaskSegment)) p, p ∈ updMap s m → ∀ x ∈ p.2,
      (x = s ∧ p.1 = s.dayKey) ∨ ∃ q, q ∈ m ∧ q.1 = p.1 ∧ x ∈ q.2 := by
  intro m
  induction m with
  | nil => intro p hp; simp [updMap] at hp
  | cons kv rest ih =>
    intro p hp x hx
    rw [updMap] at hp
    split at hp
    · rename_i hk
      rcases List.mem_cons.mp hp with h | h
      · subst h
        rcases List.mem_append.mp hx with h | h
        · exact Or.inr ⟨kv, List.mem_cons_self _ _, rfl, h⟩
        · rw [List.mem_singleton] at h
          subst h
          exact Or.inl ⟨rfl, hk⟩
      · exact Or.inr ⟨p, List.mem_cons_of_mem _ h, rfl, hx⟩
    · rcases List.mem_cons.mp hp with h | h
      · subst h
        exact Or.inr ⟨kv, List.mem_cons_self _ _, rfl, hx⟩
      · rcases ih p h x hx with h' | ⟨q, hq, hq1, hq2⟩
        · exact Or.inl h'
        · exact Or.inr ⟨q, List.mem_cons_of_mem _ hq, hq1, hq2⟩

theorem foldl_updMap_mem (segs : List TaskSegment) :
    ∀ (m : List (String × List TaskSegment)) p x,
      p ∈ segs.foldl (fun m s => updMap s m) m → x ∈ p.2 →
      (∃ s ∈ segs, x = s ∧ p.1 = s.dayKey) ∨ ∃ q, q ∈ m ∧ q.1 = p.1 ∧ x ∈ q.2 := by
  induction segs with
  | nil => intro m p x hp hx; exact Or.inr ⟨p, hp, rfl, hx⟩
  | cons sg ss ih =>
    intro m p x hp hx
    rcases ih (updMap sg m) p x hp hx with ⟨s, hs, hxs, hkey⟩ | ⟨q, hq, hq1, hq2⟩
    · exact Or.inl ⟨s, List.mem_cons_of_mem _ hs, hxs, hkey⟩
    · rcases mem_updMap sg m q hq x hq2 with ⟨hxs, hkey⟩ | ⟨q', hq', hq'1, hq'2⟩
      · exact Or.inl ⟨sg, List.mem_cons_self _ _, hxs, by rw [← hq1, hkey]⟩
      · exact Or.inr ⟨q', hq', by rw [hq'1, hq1], hq'2⟩

theorem foldl_bucketStep_unplanned (sprintDays : List SprintDay) :
    ∀ (tasks : List PlannerTask) acc x,
      x ∈ (tasks.foldl (bucketStep sprintDays) acc).2 →
      x ∈ acc.2 ∨ (x ∈ tasks ∧ createTaskSegments x sprintDays = []) := by
  intro tasks
  induction tasks with
  | nil => intro acc x hx; exact Or.inl hx
  | cons t ts ih =>
    intro acc x hx
    rw [List.foldl_cons] at hx
    rcases ih (bucketStep sprintDays acc t) x hx with h | ⟨h1, h2⟩
    · rw [bucketStep] at h
      split at h
      · rcases List.mem_append.mp h with h' | h'
        · exact Or.inl h'
        · rw [List.mem_singleton] at h'
          subst h'
          rename_i hseg
          exact Or.inr ⟨List.mem_cons_self _ _, hseg⟩
      · exact Or.inl h
    · exact Or.inr ⟨List.mem_cons_of_mem _ h1, h2⟩

theorem foldl_bucketStep_buckets (sprintDays : List SprintDay) :
    ∀ (tasks : List PlannerTask) acc p x,
      p ∈ (tasks.foldl (bucketStep sprintDays) acc).1 → x ∈ p.2 →
      (∃ t' ∈ tasks, x ∈ createTaskSegments t' sprintDays ∧ p.1 = x.dayKey) ∨
        ∃ q, q ∈ acc.1 ∧ q.1 = p.1 ∧ x ∈ q.2 := by
  intro tasks
  induction tasks with
  | nil => intro acc p x hp hx; exact Or.inr ⟨p, hp, rfl, hx⟩
  | cons t ts ih =>
    intro acc p x hp hx
    rw [List.foldl_cons] at hp
    rcases ih (bucketStep sprintDays acc t) p x hp hx with ⟨t', ht', hseg, hkey⟩ | ⟨q, hq, hq1, hq2⟩
    · exact Or.inl ⟨t', List.mem_cons_of_mem _ ht', hseg, hkey⟩
    · rw [bucketStep] at hq
      split at hq
      · exact Or.inr ⟨q, hq, hq1, hq2⟩
      · rcases foldl_updMap_mem _ _ q x hq hq2 with ⟨sg, hsg, hxs, hkey⟩ | ⟨q', hq', hq'1, hq'2⟩
        · subst hxs
          exact Or.inl ⟨t, List.mem_cons_self _ _, hsg, by rw [← hq1, hkey]⟩
        · exact Or.inr ⟨q', hq', by rw [hq'1, hq1], hq'2⟩

theorem mem_mapWithIndex {α β : Type} (f : Nat → α → β) :
    ∀ i l x, x ∈ mapWithIndex f i l → ∃ j a, a ∈ l ∧ x = f j a := by
  intro i l
  induction l generalizing i with
  | nil => intro x hx; simp [mapWithIndex] at hx
  | cons a l ih =>
    intro x hx
    rcases List.mem_cons.mp hx with h | h
    · exact ⟨i, a, List.mem_cons_self _ _, h⟩
    · obtain ⟨j, b, hb, hx⟩ := ih (i + 1) x h
      exact ⟨j, b, List.mem_cons_of_mem _ hb, hx⟩

/-- Every segment of a task references that task and a key of its occupied days. -/
theorem createTaskSegments_mem (t : PlannerTask) (ds : List SprintDay) (x : TaskSegment)
    (hx : x ∈ createTaskSegments t ds) : x.task = t ∧ x.dayKey ∈ getTaskDays t ds := by
  rw [createTaskSegments] at hx
  split at hx
  · simp at hx
  · obtain ⟨j, a, ha, rfl⟩ := mem_mapWithIndex _ _ _ _ hx
    exact ⟨rfl, ha⟩

/-- **C1 counterexample.**  A task whose start/due span (2025-11-07 … 09) lies
entirely outside scenario A's window (2025-11-17 … 23): `getTaskDays` falls
back to the single due-date key instead of zero days, and the task lands in
*no* bucket — neither a day bucket nor `unplannedTasks` (it is dropped). -/
theorem C1_counterexample :
    getTaskDays (mkTask "t1" (some 1762646400000) (some 1762473600000) (some 3600000) ["m1"])
        (buildSprintDays (some ⟨some 1763337600000, none⟩)) = ["2025-11-09"] ∧
      getTaskDays (mkTask "t1" (some 1762646400000) (some 1762473600000) (some 3600000) ["m1"])
        (buildSprintDays (some ⟨some 1763337600000, none⟩)) ≠ [] ∧
      (computeDayBuckets
        [mkTask "t1" (some 1762646400000) (some 1762473600000) (some 3600000) ["m1"]]
        (buildSprintDays (some ⟨some 1763337600000, none⟩))).2 = [] ∧
      ((computeDayBuckets
        [mkTask "t1" (some 1762646400000) (some 1762473600000) (some 3600000) ["m1"]]
        (buildSprintDays (some ⟨some 1763337600000, none⟩))).1.all
          (fun b => b.2.isEmpty)) = true := by
  refine ⟨by decide, by decide, by decide, by decide⟩

/-- **C1 (amended).**  For every task with nonzero start/due timestamps whose
walked span keys all lie outside the sprint-day key set and whose due-date key
is also outside it, `getTaskDays` returns the single due-date fallback key
(not zero days), and in the bucket computation the task appears neither in
`unplannedTasks` nor as any segment of any day bucket: it is dropped from the
board entirely. -/
theorem C1_outside_window_dropped (task : PlannerTask) (sprintDays : List SprintDay)
    (s d : Int) (hs : task.startDate = some s) (hs0 : s ≠ 0)
    (hd : task.dueDate = some d) (hd0 : d ≠ 0)
    (hwalk : ∀ k ∈ walkedKeys s d, k ∉ sprintDays.map SprintDay.key)
    (hdue : getTaskDayKey task ∉ sprintDays.map SprintDay.key) :
    getTaskDays task sprintDays = [getTaskDayKey task] ∧
      (∀ tasks, task ∉ (computeDayBuckets tasks sprintDays).2) ∧
      (∀ tasks p, p ∈ (computeDayBuckets tasks sprintDays).1 →
        ∀ seg ∈ p.2, seg.task ≠ task) := by
  have hcond : hasVal task.startDate = true ∧ hasVal task.dueDate = true := by
    rw [hs, hd]
    exact ⟨by simp [hasVal, hs0], by simp [hasVal, hd0]⟩
  have hdays : getTaskDays task sprintDays = [getTaskDayKey task] := by
    rw [getTaskDays, if_pos hcond, hs, hd]
    show (let sprintDayKeys := sprintDays.map SprintDay.key
          let days := (walkedKeys s d).filter (fun k => k ∈ sprintDayKeys)
          if days.length > 0 then days else [getTaskDayKey task]) = _
    have hfil : (walkedKeys s d).filter
        (fun k => decide (k ∈ sprintDays.map SprintDay.key)) = [] := by
      rw [List.filter_eq_nil_iff]
      intro k hk
      simpa using hwalk k hk
    show (if ((walkedKeys s d).filter
        (fun k => decide (k ∈ sprintDays.map SprintDay.key))).length > 0 then _ else _) = _
    rw [hfil]
    rfl
  have hsegs_ne : createTaskSegments task sprintDays ≠ [] := by
    rw [createTaskSegments, hdays]
    simp [mapWithIndex]
  refine ⟨hdays, ?_, ?_⟩
  · intro tasks hmem
    rcases foldl_bucketStep_unplanned sprintDays tasks _ task hmem with h | ⟨_, h2⟩
    · exact absurd h (List.not_mem_nil task)
    · exact hsegs_ne h2
  · intro tasks p hp seg hseg htask
    simp only [computeDayBuckets, List.mem_map] at hp
    obtain ⟨dy, hdy, rfl⟩ := hp
    simp only at hseg
    rcases hfind : (tasks.foldl (bucketStep sprintDays)
        (sprintDays.map fun d => (d.key, []), [])).1.find? (fun p => p.1 = dy.key) with _ | q
    · rw [hfind] at hseg
      simp at hseg
    · rw [hfind] at hseg
      simp at hseg
      have hqmem := List.mem_of_find?_eq_some hfind
      have hqkey : q.1 = dy.key := by
        have := List.find?_some hfind
        simpa using this
      rcases foldl_bucketStep_buckets sprintDays tasks _ q seg hqmem hseg with
        ⟨t', _, hsegmem, hkey⟩ | ⟨q', hq', _, hq'2⟩
      · obtain ⟨hst, hsk⟩ := createTaskSegments_mem t' sprintDays seg hsegmem
        rw [htask] at hst
        subst hst
        rw [hdays, List.mem_singleton] at hsk
        apply hdue
        rw [← hsk, ← hkey, hqkey]
        exact List.mem_map.mpr ⟨dy, hdy, rfl⟩
      · obtain ⟨dz, _, rfl⟩ := List.mem_map.mp hq'
        simp at hq'2

/-- **C1 witness**: the counterexample's task, routed through the amended law. -/
theorem C1_witness :
    getTaskDays (mkTask "t1" (some 1762646400000) (some 1762473600000) (some 3600000) ["m1"])
        (buildSprintDays (some ⟨some 1763337600000, none⟩))
      = [getTaskDayKey
          (mkTask "t1" (some 1762646400000) (some 1762473600000) (some 3600000) ["m1"])] ∧
      (mkTask "t1" (some 1762646400000) (some 1762473600000) (some 3600000) ["m1"])
        ∉ (computeDayBuckets
            [mkTask "t1" (some 1762646400000) (some 1762473600000) (some 3600000) ["m1"]]
            (buildSprintDays (some ⟨some 1763337600000, none⟩))).2 := by
  have h := C1_outside_window_dropped
    (mkTask "t1" (some 1762646400000) (some 1762473600000) (some 3600000) ["m1"])
    (buildSprintDays (some ⟨some 1763337600000, none⟩))
    1762473600000 1762646400000 rfl (by decide) rfl (by decide)
    (by decide) (by decide)
  exact ⟨h.1, h.2.1 _⟩

/-! ### Optimistic-mutation claims (C2, C3, C4, C10) -/

theorem mem_addPending (ids : List String) (taskId : String) :
    taskId ∈ addPending ids taskId := by
  rw [addPending]
  split
  · assumption
  · exact List.mem_append.mpr (Or.inr (List.mem_singleton.mpr rfl))

/-- Characterization of a `handleTaskMove` run that reaches the gateway call:
the pre-call state only gains a pending flag, and the call carries the
intended due/start values. -/
theorem moveTaskStart_some (st : PlannerState) (taskId targetDayKey : String)
    (st' : PlannerState) (call : MoveCall)
    (hstart : moveTaskStart st taskId targetDayKey = (st', some call)) :
    st' = { st with pendingTaskIds := addPending st.pendingTaskIds taskId } ∧
      call.taskId = taskId ∧
      call.dueDate = (if targetDayKey = UNPLANNED_KEY then none
                      else keyToTimestamp targetDayKey) ∧
      call.startDate = call.dueDate := by
  rw [moveTaskStart] at hstart
  rcases hfind : (visibleTasks st).find? (fun t => t.id = taskId) with _ | task
  · rw [hfind] at hstart
    simp at hstart
  · rw [hfind] at hstart
    simp only at hstart
    split at hstart
    · simp at hstart
    · rw [Prod.ext_iff] at hstart
      obtain ⟨h1, h2⟩ := hstart
      rw [Option.some.injEq] at h2
      exact ⟨h1.symm, by rw [← h2], by rw [← h2], by rw [← h2]⟩

/-- **C4 (confirmed).**  If a `moveTask` invocation reaches the gateway call
and the call rejects, the local task list after the handler is exactly what it
was before the mutation (hence every day bucket is unchanged), and an error
banner carrying the message is emitted. -/
theorem C4_rollback_on_failure (st : PlannerState) (taskId targetDayKey : String)
    (st' : PlannerState) (call : MoveCall) (msg : String)
    (hstart : moveTaskStart st taskId targetDayKey = (st', some call)) :
    (moveTaskResolve st' taskId (Except.error msg)).allSprintTasks = st.allSprintTasks ∧
      (moveTaskResolve st' taskId (Except.error msg)).banner
        = some { success := false, message := msg } ∧
      ∀ sprintDays,
        computeDayBuckets (visibleTasks (moveTaskResolve st' taskId (Except.error msg)))
            sprintDays
          = computeDayBuckets (visibleTasks st) sprintDays := by
  obtain ⟨hst', -⟩ := moveTaskStart_some st taskId targetDayKey st' call hstart
  subst hst'
  exact ⟨rfl, rfl, fun _ => rfl⟩

/-- **C4 witness**: a concrete rejected move inside scenario A's window. -/
theorem C4_witness :
    moveTaskStart (mkState [mkTask "t1" (some 1763424000000) none none ["m1"]])
        "t1" "2025-11-20"
      = ({ mkState [mkTask "t1" (some 1763424000000) none none ["m1"]] with
            pendingTaskIds := ["t1"] },
         some { taskId := "t1", currentName := "t1",
                dueDate := some 1763640000000, startDate := some 1763640000000 }) ∧
      (moveTaskResolve
          { mkState [mkTask "t1" (some 1763424000000) none none ["m1"]] with
              pendingTaskIds := ["t1"] }
          "t1" (Except.error "boom")).allSprintTasks
        = [mkTask "t1" (some 1763424000000) none none ["m1"]] ∧
      (moveTaskResolve
          { mkState [mkTask "t1" (some 1763424000000) none none ["m1"]] with
              pendingTaskIds := ["t1"] }
          "t1" (Except.error "boom")).banner
        = some { success := false, message := "boom" } := by
  have h := C4_rollback_on_failure
    (mkState [mkTask "t1" (some 1763424000000) none none ["m1"]]) "t1" "2025-11-20"
    ({ mkState [mkTask "t1" (some 1763424000000) none none ["m1"]] with
        pendingTaskIds := ["t1"] })
    { taskId := "t1", currentName := "t1",
      dueDate := some 1763640000000, startDate := some 1763640000000 }
    "boom" (by decide)
  exact ⟨by decide, h.1, h.2.1⟩

/-- **C3 counterexample.**  At the moment the gateway call is issued, the
local task list still carries the *old* due date: no task reflects the
intended new day value, refuting the claimed optimistic pre-write. -/
theorem C3_counterexample :
    (moveTaskStart (mkState [mkTask "t1" (some 1763424000000) none none ["m1"]])
        "t1" "2025-11-20").2 ≠ none ∧
      (moveTaskStart (mkState [mkTask "t1" (some 1763424000000) none none ["m1"]])
          "t1" "2025-11-20").1.allSprintTasks
        = [mkTask "t1" (some 1763424000000) none none ["m1"]] ∧
      ¬ ∃ t ∈ (moveTaskStart (mkState [mkTask "t1" (some 1763424000000) none none ["m1"]])
          "t1" "2025-11-20").1.allSprintTasks,
          t.id = "t1" ∧ t.dueDate = keyToTimestamp "2025-11-20" := by
  refine ⟨by decide, by decide, by decide⟩

/-- **C3 (amended).**  Entering Pending only marks the task busy and issues
the gateway call with the intended due/start values in the *call payload*;
the local in-memory task list is NOT modified before the call.  The list is
committed only when the call resolves successfully, and left untouched when
it rejects. -/
theorem C3_pending_then_commit (st : PlannerState) (taskId targetDayKey : String)
    (st' : PlannerState) (call : MoveCall)
    (hstart : moveTaskStart st taskId targetDayKey = (st', some call)) :
    st'.allSprintTasks = st.allSprintTasks ∧
      taskId ∈ st'.pendingTaskIds ∧
      call.dueDate = (if targetDayKey = UNPLANNED_KEY then none
                      else keyToTimestamp targetDayKey) ∧
      call.startDate = call.dueDate ∧
      (∀ u : PlannerTask, (moveTaskResolve st' taskId (Except.ok u)).allSprintTasks
        = st.allSprintTasks.map fun t => if t.id = taskId then u else t) ∧
      ∀ msg, (moveTaskResolve st' taskId (Except.error msg)).allSprintTasks
        = st.allSprintTasks := by
  obtain ⟨hst', -, hdue, hsd⟩ := moveTaskStart_some st taskId targetDayKey st' call hstart
  subst hst'
  exact ⟨rfl, mem_addPending st.pendingTaskIds taskId, hdue, hsd,
    fun _ => rfl, fun _ => rfl⟩

/-- **C3 witness**: the same concrete move as C4's. -/
theorem C3_witness :
    ({ mkState [mkTask "t1" (some 1763424000000) none none ["m1"]] with
        pendingTaskIds := ["t1"] } : PlannerState).allSprintTasks
      = (mkState [mkTask "t1" (some 1763424000000) none none ["m1"]]).allSprintTasks ∧
      "t1" ∈ ({ mkState [mkTask "t1" (some 1763424000000) none none ["m1"]] with
          pendingTaskIds := ["t1"] } : PlannerState).pendingTaskIds := by
  have h := C3_pending_then_commit
    (mkState [mkTask "t1" (some 1763424000000) none none ["m1"]]) "t1" "2025-11-20"
    ({ mkState [mkTask "t1" (some 1763424000000) none none ["m1"]] with
        pendingTaskIds := ["t1"] })
    { taskId := "t1", currentName := "t1",
      dueDate := some 1763640000000, startDate := some 1763640000000 }
    (by decide)
  exact ⟨h.1, h.2.1⟩

/-- **C10 counterexample.**  For a task with `dueDate = 0`, the claim's
"current day key derived from dueDate" is `"1970-01-01"`, but the code's
`getTaskDayKey` maps the falsy `0` to the unplanned sentinel: moving the task
to `"1970-01-01"` is *not* a no-op — a gateway call is issued and the pending
flag is set. -/
theorem C10_counterexample :
    getTaskDayKey (mkTask "t1" (some 0) none none ["m1"]) = UNPLANNED_KEY ∧
      formatDateKey 0 = "1970-01-01" ∧
      (moveTaskStart (mkState [mkTask "t1" (some 0) none none ["m1"]])
          "t1" "1970-01-01").2 ≠ none ∧
      (moveTaskStart (mkState [mkTask "t1" (some 0) none none ["m1"]])
          "t1" "1970-01-01").1
        ≠ mkState [mkTask "t1" (some 0) none none ["m1"]] := by
  refine ⟨by decide, by decide, by decide, by decide⟩

/-- **C10 (amended).**  Invoking `moveTask` with a target equal to the task's
current day key as computed by `getTaskDayKey` (the due-date key, or the
unplanned sentinel when `dueDate` is null *or zero*) is a complete no-op: the
returned state is the input state unchanged and no gateway call is issued. -/
theorem C10_move_noop (st : PlannerState) (taskId : String) (task : PlannerTask)
    (hfind : (visibleTasks st).find? (fun t => t.id = taskId) = some task) :
    moveTaskStart st taskId (getTaskDayKey task) = (st, none) := by
  simp [moveTaskStart, hfind]

/-- **C10 witness**: dropping a task on its own current day. -/
theorem C10_witness :
    ((visibleTasks (mkState [mkTask "t1" (some 1763424000000) none none ["m1"]])).find?
        (fun t => t.id = "t1")
      = some (mkTask "t1" (some 1763424000000) none none ["m1"])) ∧
      moveTaskStart (mkState [mkTask "t1" (some 1763424000000) none none ["m1"]])
          "t1" (getTaskDayKey (mkTask "t1" (some 1763424000000) none none ["m1"]))
        = (mkState [mkTask "t1" (some 1763424000000) none none ["m1"]], none) :=
  ⟨by decide,
   C10_move_noop (mkState [mkTask "t1" (some 1763424000000) none none ["m1"]]) "t1"
     (mkTask "t1" (some 1763424000000) none none ["m1"]) (by decide)⟩

/-- **C2 counterexample.**  A successful drag-move commit whose server
response dropped the selected assignee: the reconciled local task adopts the
server's empty assignee list instead of keeping the previous local one. -/
theorem C2_counterexample :
    (moveTaskResolve
        { mkState [mkTask "t1" (some 1763424000000) none none ["m1"]] with
            pendingTaskIds := ["t1"] }
        "t1" (Except.ok (mkTask "t1" (some 1763640000000) none none []))).allSprintTasks
      = [mkTask "t1" (some 1763640000000) none none []] ∧
      (mkTask "t1" (some 1763640000000) none none []).assigneeIds = [] ∧
      (mkTask "t1" (some 1763424000000) none none ["m1"]).assigneeIds = ["m1"] ∧
      ("m1" : String) ∉ (mkTask "t1" (some 1763640000000) none none []).assigneeIds := by
  refine ⟨by decide, rfl, rfl, by decide⟩

/-- **C2 (amended).**  The assignee-preservation law holds only for the drawer
edit-save path: there, if the server's returned assignee list is empty or
omits the currently-selected person, the reconciled task keeps the local
task's previous assignee list, and only a non-empty list still containing the
selected person replaces it.  The drag-move path performs no reconciliation:
the server's returned task (assignee list included) replaces the local one
verbatim. -/
theorem C2_assignee_reconciliation :
    (∀ (st : PlannerState) (localTask server : PlannerTask),
        st.drawerTask = some localTask →
        ((server.assigneeIds = [] ∨ st.selectedMemberId ∉ server.assigneeIds) →
          ∀ t ∈ (drawerSaveResolveOk st server).allSprintTasks,
            t.id = localTask.id → t.assigneeIds = localTask.assigneeIds) ∧
        ((server.assigneeIds ≠ [] ∧ st.selectedMemberId ∈ server.assigneeIds) →
          ∀ t ∈ (drawerSaveResolveOk st server).allSprintTasks,
            t.id = localTask.id → t.assigneeIds = server.assigneeIds)) ∧
      ∀ (st : PlannerState) (taskId : String) (server : PlannerTask),
        ∀ t ∈ (moveTaskResolve st taskId (Except.ok server)).allSprintTasks,
          t.id = taskId → t = server := by
  constructor
  · intro st localTask server hdrawer
    have hnccase : (server.assigneeIds = [] ∨ st.selectedMemberId ∉ server.assigneeIds) →
        ¬(server.assigneeIds ≠ [] ∧ st.selectedMemberId ∈ server.assigneeIds) := by
      rintro (h | h) ⟨h1, h2⟩
      · exact h1 h
      · exact h h2
    constructor
    · intro hcond t ht hid
      rw [drawerSaveResolveOk, hdrawer] at ht
      simp only [List.mem_map] at ht
      obtain ⟨x, _, rfl⟩ := ht
      by_cases hxid : x.id = localTask.id
      · rw [if_pos hxid]
        show (if server.assigneeIds ≠ [] ∧ st.selectedMemberId ∈ server.assigneeIds
            then server.assigneeIds else localTask.assigneeIds) = localTask.assigneeIds
        rw [if_neg (hnccase hcond)]
      · rw [if_neg hxid] at hid
        exact absurd hid hxid
    · intro hcond t ht hid
      rw [drawerSaveResolveOk, hdrawer] at ht
      simp only [List.mem_map] at ht
      obtain ⟨x, _, rfl⟩ := ht
      by_cases hxid : x.id = localTask.id
      · rw [if_pos hxid]
        show (if server.assigneeIds ≠ [] ∧ st.selectedMemberId ∈ server.assigneeIds
            then server.assigneeIds else localTask.assigneeIds) = server.assigneeIds
        rw [if_pos hcond]
      · rw [if_neg hxid] at hid
        exact absurd hid hxid
  · intro st taskId server t ht hid
    simp only [moveTaskResolve, List.mem_map] at ht
    obtain ⟨x, _, rfl⟩ := ht
    by_cases hxid : x.id = taskId
    · rw [if_pos hxid]
    · rw [if_neg hxid] at hid
      exact absurd hid hxid

/-- **C2 witness**: the drawer path preserving the local assignee list. -/
theorem C2_witness :
    ({ mkState [mkTask "t1" (some 1763424000000) none none ["m1"]] with
        drawerTask := some (mkTask "t1" (some 1763424000000) none none ["m1"]) }
          : PlannerState).drawerTask
      = some (mkTask "t1" (some 1763424000000) none none ["m1"]) ∧
      ∀ t ∈ (drawerSaveResolveOk
          { mkState [mkTask "t1" (some 1763424000000) none none ["m1"]] with
              drawerTask := some (mkTask "t1" (some 1763424000000) none none ["m1"]) }
          (mkTask "t1" (some 1763640000000) none none [])).allSprintTasks,
        t.id = "t1" → t.assigneeIds = ["m1"] := by
  refine ⟨rfl, ?_⟩
  exact (C2_assignee_reconciliation.1
    ({ mkState [mkTask "t1" (some 1763424000000) none none ["m1"]] with
        drawerTask := some (mkTask "t1" (some 1763424000000) none none ["m1"]) })
    (mkTask "t1" (some 1763424000000) none none ["m1"])
    (mkTask "t1" (some 1763640000000) none none []) rfl).1 (Or.inl rfl)

/-! ### Initial sprint selection (C9) -/

/-- **C9 counterexample.**  `now = 1000` lies inside S1's
`[startDate, endDate] = [0, 5000]`, and not inside S2's `[2000, 3000]`; yet
the selection picks S2, because `!sprint.startDate` treats S1's zero start
timestamp as absent and skips it in the current-sprint scan. -/
theorem C9_counterexample :
    pickInitialSprint 1000
        [mkSprint "S1" (some 0) (some 5000), mkSprint "S2" (some 2000) (some 3000)]
      = some "S2" ∧
      (mkSprint "S1" (some 0) (some 5000)).startDate = some 0 ∧
      (mkSprint "S1" (some 0) (some 5000)).endDate = some 5000 ∧
      (0 : Int) ≤ 1000 ∧ (1000 : Int) ≤ 5000 ∧
      ¬((2000 : Int) ≤ 1000 ∧ (1000 : Int) ≤ 3000) ∧
      ("S2" : String) ≠ "S1" := by
  refine ⟨by decide, rfl, rfl, by decide, by decide, by decide, by decide⟩

/-- **C9 (amended).**  With a sprint timestamp of `0` treated as absent (JS
falsiness), the initially selected sprint for a non-empty loaded list is:
(1) a sprint whose `[startDate, endDate]` contains `now` if one exists; else
(2) a future sprint with the earliest `startDate`; else (3) a past sprint
with the latest `endDate`; else (4) the first sprint of the list — and in
particular, when exactly one sprint's window contains `now`, that sprint is
selected regardless of list order. -/
theorem C9_initial_sprint_selection (now : Int) (sprints : List SprintConfig)
    (hne : sprints ≠ []) :
    ((∃ s ∈ sprints, containsNowB now s = true) →
        ∃ s ∈ sprints, containsNowB now s = true ∧
          pickInitialSprint now sprints = some s.id) ∧
      ((∀ s ∈ sprints, containsNowB now s = false) →
        (∃ s ∈ sprints, futureB now s = true) →
        ∃ s ∈ sprints, futureB now s = true ∧
          pickInitialSprint now sprints = some s.id ∧
          ∀ t ∈ sprints, futureB now t = true → startKey s ≤ startKey t) ∧
      ((∀ s ∈ sprints, containsNowB now s = false) →
        (∀ s ∈ sprints, futureB now s = false) →
        (∃ s ∈ sprints, pastB now s = true) →
        ∃ s ∈ sprints, pastB now s = true ∧
          pickInitialSprint now sprints = some s.id ∧
          ∀ t ∈ sprints, pastB now t = true → endKey t ≤ endKey s) ∧
      ((∀ s ∈ sprints, containsNowB now s = false) →
        (∀ s ∈ sprints, futureB now s = false) →
        (∀ s ∈ sprints, pastB now s = false) →
        pickInitialSprint now sprints = (sprints.head?).map SprintConfig.id) ∧
      ∀ s2 ∈ sprints, containsNowB now s2 = true →
        (∀ t ∈ sprints, containsNowB now t = true → t = s2) →
        pickInitialSprint now sprints = some s2.id := by
  have hne' : ¬sprints.isEmpty = true := by
    simpa [List.isEmpty_iff] using hne
  have branch1 : (∃ s ∈ sprints, containsNowB now s = true) →
      ∃ s ∈ sprints, containsNowB now s = true ∧
        pickInitialSprint now sprints = some s.id := by
    rintro ⟨s0, hs0, hc0⟩
    have hsome : (sprints.find? (containsNowB now)).isSome :=
      List.find?_isSome.mpr ⟨s0, hs0, hc0⟩
    rcases hfind : sprints.find? (containsNowB now) with _ | s
    · rw [hfind] at hsome
      simp at hsome
    · refine ⟨s, List.mem_of_find?_eq_some hfind, List.find?_some hfind, ?_⟩
      rw [pickInitialSprint, if_neg hne', hfind]
  refine ⟨branch1, ?_, ?_, ?_, ?_⟩
  · intro hnone hfut
    have hfind : sprints.find? (containsNowB now) = none :=
      List.find?_eq_none.mpr (fun x hx => by simp [hnone x hx])
    have hperm : List.Perm ((sprints.filter (futureB now)).insertionSort startLE)
        (sprints.filter (futureB now)) := List.perm_insertionSort _ _
    have hsorted : ((sprints.filter (futureB now)).insertionSort startLE).Sorted startLE :=
      List.sorted_insertionSort _ _
    obtain ⟨s0, hs0, hf0⟩ := hfut
    have hs0f : s0 ∈ (sprints.filter (futureB now)).insertionSort startLE :=
      hperm.mem_iff.mpr (List.mem_filter.mpr ⟨hs0, hf0⟩)
    rcases hcase : (sprints.filter (futureB now)).insertionSort startLE with _ | ⟨s, rest⟩
    · rw [hcase] at hs0f
      exact absurd hs0f (List.not_mem_nil s0)
    · have hsmem : s ∈ sprints.filter (futureB now) :=
        hperm.mem_iff.mp (hcase ▸ List.mem_cons_self s rest)
      have hsorted' := hcase ▸ hsorted
      obtain ⟨hsle, -⟩ := List.sorted_cons.mp hsorted'
      refine ⟨s, (List.mem_filter.mp hsmem).1, (List.mem_filter.mp hsmem).2, ?_, ?_⟩
      · rw [pickInitialSprint, if_neg hne', hfind, hcase]
        rfl
      · intro t ht htf
        have htmem : t ∈ (sprints.filter (futureB now)).insertionSort startLE :=
          hperm.mem_iff.mpr (List.mem_filter.mpr ⟨ht, htf⟩)
        rw [hcase] at htmem
        rcases List.mem_cons.mp htmem with h | h
        · exact h ▸ le_refl _
        · exact hsle t h
  · intro hnone hnofut hpast
    have hfind : sprints.find? (containsNowB now) = none :=
      List.find?_eq_none.mpr (fun x hx => by simp [hnone x hx])
    have hfut_nil : sprints.filter (futureB now) = [] :=
      List.filter_eq_nil_iff.mpr (fun x hx => by simp [hnofut x hx])
    have hperm : List.Perm ((sprints.filter (pastB now)).insertionSort endGE)
        (sprints.filter (pastB now)) := List.perm_insertionSort _ _
    have hsorted : ((sprints.filter (pastB now)).insertionSort endGE).Sorted endGE :=
      List.sorted_insertionSort _ _
    obtain ⟨s0, hs0, hf0⟩ := hpast
    have hs0f : s0 ∈ (sprints.filter (pastB now)).insertionSort endGE :=
      hperm.mem_iff.mpr (List.mem_filter.mpr ⟨hs0, hf0⟩)
    rcases hcase : (sprints.filter (pastB now)).insertionSort endGE with _ | ⟨s, rest⟩
    · rw [hcase] at hs0f
      exact absurd hs0f (List.not_mem_nil s0)
    · have hsmem : s ∈ sprints.filter (pastB now) :=
        hperm.mem_iff.mp (hcase ▸ List.mem_cons_self s rest)
      have hsorted' := hcase ▸ hsorted
      obtain ⟨hsle, -⟩ := List.sorted_cons.mp hsorted'
      refine ⟨s, (List.mem_filter.mp hsmem).1, (List.mem_filter.mp hsmem).2, ?_, ?_⟩
      · rw [pickInitialSprint, if_neg hne', hfind, hfut_nil, hcase]
        rfl
      · intro t ht htf
        have htmem : t ∈ (sprints.filter (pastB now)).insertionSort endGE :=
          hperm.mem_iff.mpr (List.mem_filter.mpr ⟨ht, htf⟩)
        rw [hcase] at htmem
        rcases List.mem_cons.mp htmem with h | h
        · exact h ▸ le_refl _
        · exact hsle t h
  · intro hnone hnofut hnopast
    have hfind : sprints.find? (containsNowB now) = none :=
      List.find?_eq_none.mpr (fun x hx => by simp [hnone x hx])
    have hfut_nil : sprints.filter (futureB now) = [] :=
      List.filter_eq_nil_iff.mpr (fun x hx => by simp [hnofut x hx])
    have hpast_nil : sprints.filter (pastB now) = [] :=
      List.filter_eq_nil_iff.mpr (fun x hx => by simp [hnopast x hx])
    rw [pickInitialSprint, if_neg hne', hfind, hfut_nil, hpast_nil]
    rfl
  · intro s2 hs2 hc2 huniq
    obtain ⟨s, hs, hc, hpick⟩ := branch1 ⟨s2, hs2, hc2⟩
    rw [hpick, huniq s hs hc]

/-- **C9 witness**: a list whose second sprint contains `now`. -/
theorem C9_witness :
    ([mkSprint "S3" (some 4000) (some 5000), mkSprint "S2" (some 2000) (some 3000)]
        : List SprintConfig) ≠ [] ∧
      ∃ s ∈ ([mkSprint "S3" (some 4000) (some 5000), mkSprint "S2" (some 2000) (some 3000)]
          : List SprintConfig),
        containsNowB 2500 s = true ∧
          pickInitialSprint 2500
              [mkSprint "S3" (some 4000) (some 5000), mkSprint "S2" (some 2000) (some 3000)]
            = some s.id :=
  ⟨by decide,
   (C9_initial_sprint_selection 2500
      [mkSprint "S3" (some 4000) (some 5000), mkSprint "S2" (some 2000) (some 3000)]
      (by decide)).1
    ⟨mkSprint "S2" (some 2000) (some 3000), by decide, by decide⟩⟩

/-! ### Description-template lemmas (C8) -/

theorem data_append (s t : String) : (s ++ t).data = s.data ++ t.data := rfl

theorem dropWhile_head_false (p : Char → Bool) :
    ∀ (l : List Char) c r, l.dropWhile p = c :: r → p c = false := by
  intro l
  induction l with
  | nil => intro c r h; simp at h
  | cons a t ih =>
    intro c r h
    rw [List.dropWhile_cons] at h
    split at h
    · exact ih c r h
    · rename_i ha
      obtain ⟨rfl, -⟩ := List.cons.injEq .. |>.mp h
      simpa using ha

theorem trimChars_cons_ws (c : Char) (r : List Char) (hc : isWS c = true) :
    (trimChars (c :: r)).length ≤ r.length := by
  rw [trimChars, List.dropWhile_cons, if_pos hc]
  calc ((r.dropWhile isWS).reverse.dropWhile isWS).reverse.length
      = ((r.dropWhile isWS).reverse.dropWhile isWS).length := List.length_reverse _
    _ ≤ (r.dropWhile isWS).reverse.length := (List.dropWhile_sublist _).length_le
    _ = (r.dropWhile isWS).length := List.length_reverse _
    _ ≤ r.length := (List.dropWhile_sublist _).length_le

/-- The head of a trimmed non-empty string is not whitespace. -/
theorem trimmed_head (c : Char) (r : List Char) (h : trimChars (c :: r) = c :: r) :
    isWS c = false := by
  by_contra hc
  have hc' : isWS c = true := by
    cases hw : isWS c
    · exact absurd hw hc
    · rfl
  have := trimChars_cons_ws c r hc'
  rw [h] at this
  simp at this

/-- A trimmed string is untouched by a leading whitespace-drop. -/
theorem trimmed_dropWhile (l : List Char) (h : trimChars l = l) :
    l.dropWhile isWS = l := by
  cases l with
  | nil => rfl
  | cons c r =>
    rw [List.dropWhile_cons, if_neg (by rw [trimmed_head c r h]; simp)]

/-- A trimmed string is untouched by a trailing whitespace-drop (on its reverse). -/
theorem trimmed_reverse_dropWhile (l : List Char) (h : trimChars l = l) :
    l.reverse.dropWhile isWS = l.reverse := by
  have h1 : l.dropWhile isWS = l := trimmed_dropWhile l h
  have h2 : (l.reverse.dropWhile isWS).reverse = l := by
    calc (l.reverse.dropWhile isWS).reverse
        = ((l.dropWhile isWS).reverse.dropWhile isWS).reverse := by rw [h1]
      _ = trimChars l := rfl
      _ = l := h
  calc l.reverse.dropWhile isWS
      = ((l.reverse.dropWhile isWS).reverse).reverse := (List.reverse_reverse _).symm
    _ = l.reverse := by rw [h2]

/-- Appending a trailing newline is erased by the trim. -/
theorem trimChars_append_newline (l : List Char) (h : trimChars l = l) :
    trimChars (l ++ ['\n']) = l := by
  cases l with
  | nil => rfl
  | cons c r =>
    have hc := trimmed_head c r h
    rw [trimChars, List.cons_append, List.dropWhile_cons, if_neg (by rw [hc]; simp)]
    have hrev : (c :: (r ++ ['\n'])).reverse = '\n' :: (c :: r).reverse := by
      rw [← List.cons_append, List.reverse_append]
      rfl
    rw [hrev, List.dropWhile_cons, if_pos (by decide)]
    rw [trimmed_reverse_dropWhile (c :: r) h, List.reverse_reverse]

theorem stripCI_of_ciEq : ∀ p q, ciEq p q = true → ∀ x, stripCI p (q ++ x) = some x := by
  intro p
  induction p with
  | nil =>
    intro q hq x
    cases q with
    | nil => simp [stripCI]
    | cons c cr => simp [ciEq] at hq
  | cons pc pr ih =>
    intro q hq x
    cases q with
    | nil => simp [ciEq] at hq
    | cons qc qr =>
      rw [ciEq, Bool.and_eq_true, decide_eq_true_eq] at hq
      rw [List.cons_append, stripCI, if_pos hq.1]
      exact ih qr hq.2 x

theorem suffix_append_cases :
    ∀ (x : List Char) (u z : List Char), u.IsSuffix (x ++ z) →
      u.IsSuffix z ∨ ∃ v, v.IsSuffix x ∧ v ≠ [] ∧ u = v ++ z := by
  intro x
  induction x with
  | nil => intro u z h; exact Or.inl (by simpa using h)
  | cons a x' ih =>
    intro u z h
    obtain ⟨t, ht⟩ := h
    cases t with
    | nil =>
      right
      exact ⟨a :: x', List.suffix_refl _, by simp, by simpa using ht⟩
    | cons b t' =>
      simp only [List.cons_append, List.cons.injEq] at ht
      rcases ih u z ⟨t', ht.2⟩ with h | ⟨v, hv, hvne, rfl⟩
      · exact Or.inl h
      · exact Or.inr ⟨v, hv.trans (List.suffix_cons a x'), hvne, rfl⟩

theorem lazyCap_append (look : List Char → Bool) :
    ∀ (x y : List Char), (∀ u, u ≠ [] → u.IsSuffix x → look (u ++ y) = false) →
      lazyCap look (x ++ y) = x ++ lazyCap look y := by
  intro x
  induction x with
  | nil => intro y _; rfl
  | cons c x' ih =>
    intro y h
    have hl : look (c :: (x' ++ y)) = false := by
      have hx := h (c :: x') (by simp) (List.suffix_refl _)
      rwa [List.cons_append] at hx
    rw [List.cons_append, lazyCap, hl, if_neg Bool.false_ne_true]
    rw [ih y (fun u hu hsuf => h u hu (hsuf.trans (List.suffix_cons c x')))]
    rw [List.cons_append]

theorem scanAC_append (y : List Char) :
    ∀ x : List Char, (∀ u, u ≠ [] → u.IsSuffix x → tryACHeaderAt (u ++ y) = none) →
      scanAC (x ++ y) = scanAC y := by
  intro x
  induction x with
  | nil => intro _; rfl
  | cons c x' ih =>
    intro h
    have hn : tryACHeaderAt (c :: (x' ++ y)) = none := by
      have hx := h (c :: x') (by simp) (List.suffix_refl _)
      rwa [List.cons_append] at hx
    rw [List.cons_append, scanAC, hn]
    exact ih (fun u hu hsuf => h u hu (hsuf.trans (List.suffix_cons c x')))

theorem scanPlainAC_none :
    ∀ x : List Char, (∀ u r, u.IsSuffix x → u = '\n' :: r → tryPlainACBody r = none) →
      scanPlainAC x = none := by
  intro x
  induction x with
  | nil => intro _; rfl
  | cons c x' ih =>
    intro h
    rw [scanPlainAC]
    have ih' := ih (fun u r hsuf hu => h u r (hsuf.trans (List.suffix_cons c x')) hu)
    split
    · rename_i hc
      subst hc
      rw [h ('\n' :: x') x' (List.suffix_refl _) rfl]
      exact ih'
    · exact ih'

theorem consumeWsNl_newline (l : List Char) (h : l.takeWhile isWS = []) :
    consumeWsNl ('\n' :: l) = some l := by
  simp only [consumeWsNl]
  rw [List.takeWhile_cons, if_pos (by decide : isWS '\n' = true), h]
  rfl

theorem string_eta (s : String) : String.mk s.data = s := rfl

theorem string_ne_empty_of_data (s : String) (h : s.data ≠ []) : s ≠ "" := by
  intro hs
  rw [hs] at h
  exact h rfl

theorem data_ne_nil_of_string (s : String) (h : s ≠ "") : s.data ≠ [] := by
  intro hd
  exact h (by rw [← string_eta s, hd])

theorem takeWhile_isWS_nil (c : Char) (l : List Char) (hc : isWS c = false) :
    (c :: l).takeWhile isWS = [] := by
  simp [List.takeWhile_cons, hc]

theorem dropWhile_cons_neg (p : Char → Bool) (c : Char) (l : List Char) (hc : p c = false) :
    (c :: l).dropWhile p = c :: l := by
  simp [List.dropWhile_cons, hc]

theorem dropWhile_append_self (p : Char → Bool) (x z : List Char)
    (hx : x.dropWhile p = x) (hne : x ≠ []) :
    (x ++ z).dropWhile p = x ++ z := by
  cases x with
  | nil => exact absurd rfl hne
  | cons c t =>
    have hc : p c = false := dropWhile_head_false p (c :: t) c t hx
    rw [List.cons_append]
    exact dropWhile_cons_neg p c (t ++ z) hc

theorem trimChars_eq_self (l : List Char) (h1 : l.dropWhile isWS = l)
    (h2 : l.reverse.dropWhile isWS = l.reverse) : trimChars l = l := by
  rw [trimChars, h1, h2, List.reverse_reverse]

theorem tryObjAt_HO (z : List Char) (hz : z.takeWhile isWS = []) :
    tryObjAt ("## Objective\n".data ++ z) = some z := by
  have h1 : tryObjAt ("## Objective\n".data ++ z) = consumeWsNl ('\n' :: z) := rfl
  rw [h1, consumeWsNl_newline z hz]

theorem tryACHeaderAt_not_hash (c : Char) (z : List Char) (hc : c ≠ '#') :
    tryACHeaderAt (c :: z) = none := by
  cases z with
  | nil => rfl
  | cons c2 r =>
    simp only [tryACHeaderAt]
    rw [if_neg (fun hand => hc hand.1)]

theorem tryACHeaderAt_HO (z : List Char) :
    tryACHeaderAt ("## Objective\n".data ++ z) = none := rfl

theorem tryACHeaderAt_HO1 (z : List Char) :
    tryACHeaderAt (('#' :: ' ' :: "Objective\n".data) ++ z) = none := rfl

theorem tryACHeaderAt_Hac (a : List Char) (ha : a.takeWhile isWS = []) :
    tryACHeaderAt ("## Acceptance Criteria\n".data ++ a) = some a := by
  have h1 : tryACHeaderAt ("## Acceptance Criteria\n".data ++ a)
      = consumeWsNl ('\n' :: a) := rfl
  rw [h1, consumeWsNl_newline a ha]

theorem H_suffix_cases :
    ∀ v ∈ ("## Objective\n".data).tails,
      v = [] ∨ v = "## Objective\n".data ∨ v = '#' :: ' ' :: "Objective\n".data ∨
        v.head? ≠ some '#' := by decide

theorem H_suffix_nl :
    ∀ v ∈ ("## Objective\n".data).tails, v.head? = some '\n' → v = ['\n'] := by decide

theorem tryAC_none_in_HO (o : List Char) (hhash : '#' ∉ o) :
    ∀ u w, u ≠ [] → u.IsSuffix ("## Objective\n".data ++ o) →
      tryACHeaderAt (u ++ w) = none := by
  intro u w hu hsuf
  rcases suffix_append_cases _ u o hsuf with h | ⟨v, hv, hvne, rfl⟩
  · cases u with
    | nil => exact absurd rfl hu
    | cons c u' =>
      have hc : c ∈ o := h.subset (List.mem_cons_self c u')
      exact tryACHeaderAt_not_hash c (u' ++ w) (fun hcc => hhash (hcc ▸ hc))
  · have hmem : v ∈ ("## Objective\n".data).tails := (List.mem_tails _ _).mpr hv
    rcases H_suffix_cases v hmem with rfl | rfl | rfl | hhead
    · exact absurd rfl hvne
    · rw [List.append_assoc]
      exact tryACHeaderAt_HO (o ++ w)
    · rw [List.append_assoc]
      exact tryACHeaderAt_HO1 (o ++ w)
    · cases v with
      | nil => exact absurd rfl hvne
      | cons c v' =>
        have hc : c ≠ '#' := fun hcc => hhead (by rw [hcc]; rfl)
        exact tryACHeaderAt_not_hash c ((v' ++ o) ++ w) hc

theorem lookNlSection_not_hash (c : Char) (z : List Char)
    (hz : ∀ d, z.head? = some d → d ≠ '#') :
    lookNlSection (c :: z) = false := by
  cases z with
  | nil => simp [lookNlSection]
  | cons c2 z' =>
    cases z' with
    | nil => simp [lookNlSection]
    | cons c3 r =>
      have hc2 : c2 ≠ '#' := hz c2 rfl
      simp only [lookNlSection]
      rw [if_neg (fun hand : c2 = '#' ∧ c3 = '#' => hc2 hand.1)]
      rw [ite_self]

theorem lookNl_false_in_o (o rest : List Char) (hhash : '#' ∉ o)
    (hrest : ∀ d, rest.head? = some d → d ≠ '#') :
    ∀ u, u ≠ [] → u.IsSuffix o → lookNlSection (u ++ rest) = false := by
  intro u hu hsuf
  cases u with
  | nil => exact absurd rfl hu
  | cons c u' =>
    apply lookNlSection_not_hash c (u' ++ rest)
    intro d hd
    cases u' with
    | nil => exact hrest d hd
    | cons e u'' =>
      rw [List.cons_append] at hd
      simp only [List.head?_cons, Option.some.injEq] at hd
      subst hd
      have he : e ∈ o := hsuf.subset (by simp)
      exact fun hcc => hhash (hcc ▸ he)

theorem lazyCap_all (look : List Char → Bool) (a : List Char)
    (h : ∀ u, u ≠ [] → u.IsSuffix a → look u = false) :
    lazyCap look a = a := by
  have h' : ∀ u, u ≠ [] → u.IsSuffix a → look (u ++ []) = false := by
    intro u hu hsuf
    rw [List.append_nil]
    exact h u hu hsuf
  have hall := lazyCap_append look a [] h'
  rw [List.append_nil] at hall
  rw [hall, show lazyCap look [] = ([] : List Char) from rfl, List.append_nil]

theorem lazyCap_M (a : List Char) :
    lazyCap lookNlSection ("\n\n## Acceptance Criteria\n".data ++ a) = ['\n'] := rfl

theorem scanObj_build (o rest : List Char) (ho : (o ++ rest).takeWhile isWS = []) :
    scanObj ("## Objective\n".data ++ (o ++ rest))
      = some (lazyCap lookNlSection (o ++ rest)) := by
  have h1 : tryObjAt ('#' :: ('#' :: (" Objective\n".data ++ (o ++ rest))))
      = some (o ++ rest) := tryObjAt_HO (o ++ rest) ho
  show scanObj ('#' :: ('#' :: (" Objective\n".data ++ (o ++ rest))))
      = some (lazyCap lookNlSection (o ++ rest))
  rw [scanObj, h1]

theorem scanAC_cons_nl (c : Char) (hc : c ≠ '#') (l : List Char) :
    scanAC (c :: l) = scanAC l := by
  rw [scanAC, tryACHeaderAt_not_hash c l hc]

theorem scanAC_Hac (a : List Char) (ha : a.takeWhile isWS = []) :
    scanAC ("## Acceptance Criteria\n".data ++ a) = some (lazyCap lookNlSection a) := by
  have h1 : tryACHeaderAt ('#' :: ('#' :: (" Acceptance Criteria\n".data ++ a)))
      = some a := tryACHeaderAt_Hac a ha
  show scanAC ('#' :: ('#' :: (" Acceptance Criteria\n".data ++ a)))
      = some (lazyCap lookNlSection a)
  rw [scanAC, h1]

theorem scanAC_build (o a : List Char) (hhash : '#' ∉ o) (ha : a.takeWhile isWS = []) :
    scanAC (("## Objective\n".data ++ o) ++ ("\n\n## Acceptance Criteria\n".data ++ a))
      = some (lazyCap lookNlSection a) := by
  rw [scanAC_append ("\n\n## Acceptance Criteria\n".data ++ a) ("## Objective\n".data ++ o)
    (fun u hu hsuf =>
      tryAC_none_in_HO o hhash u ("\n\n## Acceptance Criteria\n".data ++ a) hu hsuf)]
  show scanAC ('\n' :: ('\n' :: ("## Acceptance Criteria\n".data ++ a)))
      = some (lazyCap lookNlSection a)
  rw [scanAC_cons_nl '\n' (by decide), scanAC_cons_nl '\n' (by decide), scanAC_Hac a ha]

theorem trimChars_L_pos (o a : List Char) (hta : trimChars a = a) (hane : a ≠ []) :
    trimChars (("## Objective\n".data ++ o) ++ ("\n\n## Acceptance Criteria\n".data ++ a))
      = ("## Objective\n".data ++ o) ++ ("\n\n## Acceptance Criteria\n".data ++ a) := by
  apply trimChars_eq_self
  · rfl
  · have hr : ((("## Objective\n".data ++ o)
          ++ ("\n\n## Acceptance Criteria\n".data ++ a))).reverse
        = a.reverse ++ (("\n\n## Acceptance Criteria\n".data).reverse
            ++ ("## Objective\n".data ++ o).reverse) := by
      rw [List.reverse_append, List.reverse_append, List.append_assoc]
    rw [hr]
    exact dropWhile_append_self isWS a.reverse _
      (trimmed_reverse_dropWhile a hta)
      (fun hnil => hane (List.reverse_eq_nil_iff.mp hnil))

theorem trimChars_L_neg (o : List Char) (hto : trimChars o = o) (hone : o ≠ []) :
    trimChars ("## Objective\n".data ++ o) = "## Objective\n".data ++ o := by
  apply trimChars_eq_self
  · rfl
  · have hr : ("## Objective\n".data ++ o).reverse
        = o.reverse ++ ("## Objective\n".data).reverse := by
      rw [List.reverse_append]
    rw [hr]
    exact dropWhile_append_self isWS o.reverse _
      (trimmed_reverse_dropWhile o hto)
      (fun hnil => hone (List.reverse_eq_nil_iff.mp hnil))

theorem plainAC_of_sectionSafe (s : String) (hs : sectionSafe s) :
    ∀ r, ('\n' :: r).IsSuffix ('\n' :: s.data) → tryPlainACBody r = none := by
  intro r hsuf
  have hmem : ('\n' :: r) ∈ ('\n' :: s.data).tails := (List.mem_tails _ _).mpr hsuf
  have hall := List.all_eq_true.mp hs.2 ('\n' :: r) hmem
  have hb : (!acPlainBodyAt r) = true := hall
  simp only [Bool.not_eq_true'] at hb
  cases hopt : tryPlainACBody r with
  | none => rfl
  | some v =>
    rw [acPlainBodyAt, hopt] at hb
    simp at hb

theorem lookNl_false_inside (s : String) (hs : sectionSafe s) :
    ∀ u, u ≠ [] → u.IsSuffix s.data → lookNlSection u = false := by
  intro u hu hsuf
  cases u with
  | nil => exact absurd rfl hu
  | cons c u' =>
    apply lookNlSection_not_hash
    intro d hd
    cases u' with
    | nil => simp at hd
    | cons e u'' =>
      simp only [List.head?_cons, Option.some.injEq] at hd
      subst hd
      have he : e ∈ s.data := hsuf.subset (by simp)
      exact fun hcc => hs.1 (hcc ▸ he)

theorem build_pos (title objective ac : String)
    (ho : jsTrim objective = objective) (hone : objective ≠ "")
    (ha : jsTrim ac = ac) (hane : ac ≠ "") :
    buildClickUpDescription title objective ac
      = (("## Objective\n" ++ objective) ++ "\n\n## Acceptance Criteria\n") ++ ac := by
  simp only [buildClickUpDescription, ho, ha]
  rw [if_pos hane, if_pos hone]

theorem build_neg (title objective ac : String)
    (ho : jsTrim objective = objective) (hone : objective ≠ "")
    (ha : jsTrim ac = ac) (hane : ac = "") :
    buildClickUpDescription title objective ac = "## Objective\n" ++ objective := by
  simp only [buildClickUpDescription, ho, ha]
  rw [if_neg (fun h => h hane), if_pos hone]

theorem parse_eval_some (s : String) (hne : s.data ≠ []) (htr : trimChars s.data = s.data)
    (capO capA : List Char) (hobj : scanObj s.data = some capO) (hcapO : capO ≠ [])
    (hac : scanAC s.data = some capA) :
    parseClickUpDescription (some s)
      = ⟨⟨normalizeSectionContent capO⟩, ⟨normalizeSectionContent capA⟩, s⟩ := by
  have hjs : ¬ jsTrim s = "" := by
    intro h
    have h2 : trimChars s.data = [] := congrArg String.data h
    rw [htr] at h2
    exact hne h2
  simp only [parseClickUpDescription]
  rw [if_neg hjs, htr, hobj, hac]
  simp only [Option.getD_some]
  rw [if_pos hcapO]

theorem parse_eval_none (s : String) (hne : s.data ≠ []) (htr : trimChars s.data = s.data)
    (capO : List Char) (hobj : scanObj s.data = some capO) (hcapO : capO ≠ [])
    (hac : scanAC s.data = none) (hpl : scanPlainAC s.data = none) :
    parseClickUpDescription (some s)
      = ⟨⟨normalizeSectionContent capO⟩, "", s⟩ := by
  have hjs : ¬ jsTrim s = "" := by
    intro h
    have h2 : trimChars s.data = [] := congrArg String.data h
    rw [htr] at h2
    exact hne h2
  simp only [parseClickUpDescription]
  rw [if_neg hjs, htr, hobj, hac, hpl]
  simp only [Option.getD_none]
  rw [if_pos hcapO]
  rfl

theorem parse_build_pos (title objective ac : String)
    (ho : jsTrim objective = objective) (hone : objective ≠ "")
    (ha : jsTrim ac = ac) (hane : ac ≠ "")
    (hso : sectionSafe objective) (hsa : sectionSafe ac) :
    parseClickUpDescription (some (buildClickUpDescription title objective ac))
      = ⟨objective, ac, buildClickUpDescription title objective ac⟩ := by
  have hbuild := build_pos title objective ac ho hone ha hane
  have hto : trimChars objective.data = objective.data := congrArg String.data ho
  have hta : trimChars ac.data = ac.data := congrArg String.data ha
  have honel : objective.data ≠ [] := data_ne_nil_of_string objective hone
  have hanel : ac.data ≠ [] := data_ne_nil_of_string ac hane
  have htka : ac.data.takeWhile isWS = [] := by
    cases hd : ac.data with
    | nil => exact absurd hd hanel
    | cons c t =>
      have hta' := hta
      rw [hd] at hta'
      exact takeWhile_isWS_nil c t (trimmed_head c t hta')
  have htkOr : (objective.data
      ++ ("\n\n## Acceptance Criteria\n".data ++ ac.data)).takeWhile isWS = [] := by
    cases hd : objective.data with
    | nil => exact absurd hd honel
    | cons c t =>
      have hto' := hto
      rw [hd] at hto'
      rw [List.cons_append]
      exact takeWhile_isWS_nil c _ (trimmed_head c t hto')
  have hsdata : ((("## Objective\n" ++ objective) ++ "\n\n## Acceptance Criteria\n") ++ ac).data
      = ("## Objective\n".data ++ objective.data)
          ++ ("\n\n## Acceptance Criteria\n".data ++ ac.data) := by
    simp [data_append, List.append_assoc]
  have hrest : ∀ d, (("\n\n## Acceptance Criteria\n".data ++ ac.data)).head? = some d →
      d ≠ '#' := by
    intro d hd
    have h2 : some '\n' = some d := hd
    injection h2 with h3
    rw [← h3]
    decide
  have hobj : scanObj ((("## Objective\n" ++ objective)
        ++ "\n\n## Acceptance Criteria\n") ++ ac).data
      = some (objective.data ++ ['\n']) := by
    rw [hsdata, List.append_assoc,
      scanObj_build objective.data ("\n\n## Acceptance Criteria\n".data ++ ac.data) htkOr,
      lazyCap_append lookNlSection objective.data
        ("\n\n## Acceptance Criteria\n".data ++ ac.data)
        (lookNl_false_in_o objective.data ("\n\n## Acceptance Criteria\n".data ++ ac.data)
          hso.1 hrest),
      lazyCap_M]
  have hac2 : scanAC ((("## Objective\n" ++ objective)
        ++ "\n\n## Acceptance Criteria\n") ++ ac).data = some ac.data := by
    rw [hsdata, scanAC_build objective.data ac.data hso.1 htka,
      lazyCap_all lookNlSection ac.data (lookNl_false_inside ac hsa)]
  have hne : ((("## Objective\n" ++ objective) ++ "\n\n## Acceptance Criteria\n") ++ ac).data
      ≠ [] := by
    rw [hsdata]
    exact fun h => List.noConfusion h
  have htrim : trimChars ((("## Objective\n" ++ objective)
        ++ "\n\n## Acceptance Criteria\n") ++ ac).data
      = ((("## Objective\n" ++ objective) ++ "\n\n## Acceptance Criteria\n") ++ ac).data := by
    rw [hsdata]
    exact trimChars_L_pos objective.data ac.data hta hanel
  rw [hbuild,
    parse_eval_some _ hne htrim _ _ hobj (by simp) hac2,
    show normalizeSectionContent (objective.data ++ ['\n']) = objective.data from by
      rw [normalizeSectionContent]
      exact trimChars_append_newline objective.data hto,
    show normalizeSectionContent ac.data = ac.data from by
      rw [normalizeSectionContent]
      exact hta]

theorem parse_build_neg (title objective ac : String)
    (ho : jsTrim objective = objective) (hone : objective ≠ "")
    (ha : jsTrim ac = ac) (hane : ac = "") (hso : sectionSafe objective) :
    parseClickUpDescription (some (buildClickUpDescription title objective ac))
      = ⟨objective, "", buildClickUpDescription title objective ac⟩ := by
  have hbuild := build_neg title objective ac ho hone ha hane
  have hto : trimChars objective.data = objective.data := congrArg String.data ho
  have honel : objective.data ≠ [] := data_ne_nil_of_string objective hone
  have htko : objective.data.takeWhile isWS = [] := by
    cases hd : objective.data with
    | nil => exact absurd hd honel
    | cons c t =>
      have hto' := hto
      rw [hd] at hto'
      exact takeWhile_isWS_nil c t (trimmed_head c t hto')
  have hsdata : (("## Objective\n" ++ objective)).data
      = "## Objective\n".data ++ objective.data := rfl
  have hobj : scanObj ("## Objective\n" ++ objective).data = some objective.data := by
    rw [hsdata]
    have h0 := scanObj_build objective.data [] (by rw [List.append_nil]; exact htko)
    rw [List.append_nil] at h0
    rw [h0, lazyCap_all lookNlSection objective.data (lookNl_false_inside objective hso)]
  have hacn : scanAC ("## Objective\n" ++ objective).data = none := by
    rw [hsdata]
    have h1 := scanAC_append [] ("## Objective\n".data ++ objective.data)
      (fun u hu hsuf => tryAC_none_in_HO objective.data hso.1 u [] hu hsuf)
    rw [List.append_nil] at h1
    rw [h1]
    rfl
  have hpl : scanPlainAC ("## Objective\n" ++ objective).data = none := by
    rw [hsdata]
    apply scanPlainAC_none
    intro u r hsuf hu
    subst hu
    rcases suffix_append_cases _ ('\n' :: r) objective.data hsuf with h | ⟨v, hv, hvne, heq⟩
    · exact plainAC_of_sectionSafe objective hso r
        (h.trans (List.suffix_cons '\n' objective.data))
    · cases v with
      | nil => exact absurd rfl hvne
      | cons cv v' =>
        rw [List.cons_append] at heq
        injection heq with h1 h2
        subst h1
        have hmemv : ('\n' :: v') ∈ ("## Objective\n".data).tails :=
          (List.mem_tails _ _).mpr hv
        have hv1 : ('\n' :: v') = ['\n'] := H_suffix_nl _ hmemv rfl
        have hv'nil : v' = [] := by injection hv1
        subst hv'nil
        rw [List.nil_append] at h2
        subst h2
        exact plainAC_of_sectionSafe objective hso objective.data (List.suffix_refl _)
  have hne : (("## Objective\n" ++ objective)).data ≠ [] := by
    rw [hsdata]
    exact fun h => List.noConfusion h
  have htrim : trimChars (("## Objective\n" ++ objective)).data
      = (("## Objective\n" ++ objective)).data := by
    rw [hsdata]
    exact trimChars_L_neg objective.data hto honel
  rw [hbuild,
    parse_eval_none _ hne htrim _ hobj honel hacn hpl,
    show normalizeSectionContent objective.data = objective.data from by
      rw [normalizeSectionContent]
      exact hto]

/-- C8 counterexample: the claimed round-trip does not hold for every objective —
an objective that itself contains a markdown section header line is truncated by
the parser, so parsing the built description does not recover it. -/
theorem C8_counterexample :
    (parseClickUpDescription
        (some (buildClickUpDescription "T" "A\n## B" "C"))).objective ≠ "A\n## B" := by
  decide

/-- C8 (amended): for a trimmed nonempty objective and a trimmed acceptance-criteria
string, both free of `'#'` characters and of embedded plain-text
`Acceptance Criteria` header lines, parsing the description built by
`buildClickUpDescription` recovers the objective and the acceptance criteria
exactly, and rebuilding from the parsed fields reproduces the description. -/
theorem C8_roundtrip (title objective ac : String)
    (ho : jsTrim objective = objective) (hone : objective ≠ "")
    (ha : jsTrim ac = ac) (hso : sectionSafe objective) (hsa : sectionSafe ac) :
    (parseClickUpDescription (some (buildClickUpDescription title objective ac))).objective
        = objective ∧
      (parseClickUpDescription
          (some (buildClickUpDescription title objective ac))).acceptanceCriteria = ac ∧
      buildClickUpDescription title
          (parseClickUpDescription
            (some (buildClickUpDescription title objective ac))).objective
          (parseClickUpDescription
            (some (buildClickUpDescription title objective ac))).acceptanceCriteria
        = buildClickUpDescription title objective ac := by
  by_cases hane : ac = ""
  · rw [parse_build_neg title objective ac ho hone ha hane hso]
    refine ⟨rfl, hane.symm, ?_⟩
    rw [hane]
  · rw [parse_build_pos title objective ac ho hone ha hane hso hsa]
    exact ⟨rfl, rfl, rfl⟩

/-- Witness: `C8_roundtrip` applied at concrete inputs. -/
theorem C8_witness :
    (parseClickUpDescription
        (some (buildClickUpDescription "T" "Ship the widget" "It works"))).objective
        = "Ship the widget" ∧
      (parseClickUpDescription
          (some (buildClickUpDescription "T" "Ship the widget" "It works"))).acceptanceCriteria
        = "It works" ∧
      buildClickUpDescription "T"
          (parseClickUpDescription
            (some (buildClickUpDescription "T" "Ship the widget" "It works"))).objective
          (parseClickUpDescription
            (some (buildClickUpDescription "T" "Ship the widget" "It works"))).acceptanceCriteria
        = buildClickUpDescription "T" "Ship the widget" "It works" :=
  C8_roundtrip "T" "Ship the widget" "It works" (by decide) (by decide) (by decide)
    (by decide) (by decide)

end SprintAgenda
